import Mathlib

/-!
Shallow embedding of the device status ingestion and storage subsystem of
`rootfs/usr/local/src/device_storage.py` (class `DeviceStorage`).

Modelling conventions:
* Decoded JSON values (the result of Python `json.loads`) are modelled by the
  inductive `Json`.  JSON numbers are modelled as integers (`Int`); none of the
  verified properties depend on floating-point payload values.  A payload that
  fails to decode (`json.JSONDecodeError`) is modelled as `none : Option Json`.
* Python dicts are modelled as association lists in insertion order: assignment
  to an existing key overwrites the value in place (keeping the key position),
  assignment to a fresh key appends.  This matches CPython dict semantics.
* `DeviceStorage` state is modelled by `State`: the in-memory dict
  `self._devices` (`mem`) and the persisted snapshot `devices.json` (`disk`).
  `_save_devices` catches every exception, so a failing disk write is modelled
  by a boolean parameter `saveOk`: on `false` the snapshot is left unchanged.
* Wall-clock time (`time.time()`) is passed in as an explicit parameter.
* Python object aliasing matters: for an already-stored identifier,
  `device = self._devices.get(mac, ...)` aliases the stored record, so every
  in-place mutation of `device` (e.g. `device['last_seen'] = current_time`)
  is immediately visible in the store, even when the update is later rejected.
  The embedding threads this through explicitly (`aliasMem`).
* `caps_str.split(',')` raises `AttributeError` when the `supportAttributes`
  value is not a string; `update_device` does not catch it, while
  `process_mqtt_message` catches every exception and returns `False`.  The
  result type `UpdOut` has an `exn` constructor carrying the store state at the
  raise point.
-/

/-- Decoded JSON value (output of Python `json.loads`); numbers are modelled
as integers. -/
inductive Json where
  | null : Json
  | bool (b : Bool) : Json
  | num (n : Int) : Json
  | str (s : String) : Json
  | arr (xs : List Json) : Json
  | obj (kvs : List (String × Json)) : Json

mutual
/-- Decidable equality on `Json` (the `deriving` handler does not support
nested inductives in this toolchain). -/
def jsonDecEq : (a b : Json) → Decidable (a = b)
  | Json.null, Json.null => isTrue rfl
  | Json.null, Json.bool _ => isFalse (fun h => Json.noConfusion h)
  | Json.null, Json.num _ => isFalse (fun h => Json.noConfusion h)
  | Json.null, Json.str _ => isFalse (fun h => Json.noConfusion h)
  | Json.null, Json.arr _ => isFalse (fun h => Json.noConfusion h)
  | Json.null, Json.obj _ => isFalse (fun h => Json.noConfusion h)
  | Json.bool _, Json.null => isFalse (fun h => Json.noConfusion h)
  | Json.bool a, Json.bool b =>
    match decEq a b with
    | isTrue h => isTrue (by rw [h])
    | isFalse h => isFalse (fun he => h (by cases he; rfl))
  | Json.bool _, Json.num _ => isFalse (fun h => Json.noConfusion h)
  | Json.bool _, Json.str _ => isFalse (fun h => Json.noConfusion h)
  | Json.bool _, Json.arr _ => isFalse (fun h => Json.noConfusion h)
  | Json.bool _, Json.obj _ => isFalse (fun h => Json.noConfusion h)
  | Json.num _, Json.null => isFalse (fun h => Json.noConfusion h)
  | Json.num _, Json.bool _ => isFalse (fun h => Json.noConfusion h)
  | Json.num a, Json.num b =>
    match decEq a b with
    | isTrue h => isTrue (by rw [h])
    | isFalse h => isFalse (fun he => h (by cases he; rfl))
  | Json.num _, Json.str _ => isFalse (fun h => Json.noConfusion h)
  | Json.num _, Json.arr _ => isFalse (fun h => Json.noConfusion h)
  | Json.num _, Json.obj _ => isFalse (fun h => Json.noConfusion h)
  | Json.str _, Json.null => isFalse (fun h => Json.noConfusion h)
  | Json.str _, Json.bool _ => isFalse (fun h => Json.noConfusion h)
  | Json.str _, Json.num _ => isFalse (fun h => Json.noConfusion h)
  | Json.str a, Json.str b =>
    match decEq a b with
    | isTrue h => isTrue (by rw [h])
    | isFalse h => isFalse (fun he => h (by cases he; rfl))
  | Json.str _, Json.arr _ => isFalse (fun h => Json.noConfusion h)
  | Json.str _, Json.obj _ => isFalse (fun h => Json.noConfusion h)
  | Json.arr _, Json.null => isFalse (fun h => Json.noConfusion h)
  | Json.arr _, Json.bool _ => isFalse (fun h => Json.noConfusion h)
  | Json.arr _, Json.num _ => isFalse (fun h => Json.noConfusion h)
  | Json.arr _, Json.str _ => isFalse (fun h => Json.noConfusion h)
  | Json.arr a, Json.arr b =>
    match jsonListDecEq a b with
    | isTrue h => isTrue (by rw [h])
    | isFalse h => isFalse (fun he => h (by cases he; rfl))
  | Json.arr _, Json.obj _ => isFalse (fun h => Json.noConfusion h)
  | Json.obj _, Json.null => isFalse (fun h => Json.noConfusion h)
  | Json.obj _, Json.bool _ => isFalse (fun h => Json.noConfusion h)
  | Json.obj _, Json.num _ => isFalse (fun h => Json.noConfusion h)
  | Json.obj _, Json.str _ => isFalse (fun h => Json.noConfusion h)
  | Json.obj _, Json.arr _ => isFalse (fun h => Json.noConfusion h)
  | Json.obj a, Json.obj b =>
    match jsonObjDecEq a b with
    | isTrue h => isTrue (by rw [h])
    | isFalse h => isFalse (fun he => h (by cases he; rfl))

/-- Decidable equality on lists of `Json`. -/
def jsonListDecEq : (a b : List Json) → Decidable (a = b)
  | [], [] => isTrue rfl
  | [], _ :: _ => isFalse (fun h => List.noConfusion h)
  | _ :: _, [] => isFalse (fun h => List.noConfusion h)
  | x :: xs, y :: ys =>
    match jsonDecEq x y with
    | isTrue h1 =>
      match jsonListDecEq xs ys with
      | isTrue h2 => isTrue (by rw [h1, h2])
      | isFalse h2 => isFalse (fun he => h2 (by cases he; rfl))
    | isFalse h1 => isFalse (fun he => h1 (by cases he; rfl))

/-- Decidable equality on JSON object member lists. -/
def jsonObjDecEq : (a b : List (String × Json)) → Decidable (a = b)
  | [], [] => isTrue rfl
  | [], _ :: _ => isFalse (fun h => List.noConfusion h)
  | _ :: _, [] => isFalse (fun h => List.noConfusion h)
  | (k1, v1) :: xs, (k2, v2) :: ys =>
    match decEq k1 k2 with
    | isTrue hk =>
      match jsonDecEq v1 v2 with
      | isTrue hv =>
        match jsonObjDecEq xs ys with
        | isTrue ht => isTrue (by rw [hk, hv, ht])
        | isFalse ht => isFalse (fun he => ht (by cases he; rfl))
      | isFalse hv =>
        isFalse (fun he => hv (by injection he with h1 _; injection h1 with _ h2))
    | isFalse hk =>
      isFalse (fun he => hk (by injection he with h1 _; injection h1 with h2 _))
end

instance : DecidableEq Json := jsonDecEq

/-- Association-list lookup, first match: models Python `d[k]` / `d.get(k)`
on a dict (whose keys are unique, so first match is the match). -/
def aGet {α β : Type} [DecidableEq α] : List (α × β) → α → Option β
  | [], _ => none
  | (k', v) :: t, k => if k' = k then some v else aGet t k

/-- Association-list assignment `d[k] = v` with CPython dict semantics:
overwrite in place at the first occurrence of the key, else append. -/
def aIns {α β : Type} [DecidableEq α] : List (α × β) → α → β → List (α × β)
  | [], k, v => [(k, v)]
  | (k', v') :: t, k, v => if k' = k then (k', v) :: t else (k', v') :: aIns t k v

/-- Models Python `a.update(b)`: fold `b`'s entries into `a` in order. -/
def aMerge {α β : Type} [DecidableEq α] (a b : List (α × β)) : List (α × β) :=
  b.foldl (fun acc kv => aIns acc kv.1 kv.2) a

/-- Keys of an association list, in order. -/
def aKeys {α β : Type} (l : List (α × β)) : List α := l.map Prod.fst

/-- Models Python `item.get(k)` on a decoded JSON object: absent keys and
`null` values both come back as Python `None`, i.e. `Json.null`. -/
def pyGet (kvs : List (String × Json)) (k : String) : Json :=
  match aGet kvs k with
  | some v => v
  | none => Json.null

/-- Python truthiness of a decoded JSON value (`if x:`). -/
def pyTruthy : Json → Bool
  | Json.null => false
  | Json.bool b => b
  | Json.num n => decide (n ≠ 0)
  | Json.str s => decide (s ≠ "")
  | Json.arr xs => decide (xs ≠ [])
  | Json.obj kvs => decide (kvs ≠ [])

/-- Whether a decoded JSON value is hashable in Python (usable as a dict key).
Lists and dicts are unhashable; using one as a key raises `TypeError`. -/
def hashableKey : Json → Bool
  | Json.arr _ => false
  | Json.obj _ => false
  | _ => true

/-- Python `str.strip()` character class (ASCII whitespace; the unicode
whitespace cases of Python are irrelevant to the payloads modelled here). -/
def isPySpace (c : Char) : Bool :=
  c = ' ' || c = '\t' || c = '\n' || c = '\r' || c = '\x0b' || c = '\x0c'

/-- Models Python `s.strip()`. -/
def pyStrip (s : String) : String :=
  String.mk (((s.data.dropWhile isPySpace).reverse.dropWhile isPySpace).reverse)

/-- Splitting a character list at every occurrence of a separator; the
result always has one more field than there are separators. -/
def splitChar (sep : Char) : List Char → List (List Char)
  | [] => [[]]
  | c :: t =>
    match splitChar sep t with
    | [] => [[c]]
    | h :: r => if c = sep then [] :: h :: r else (c :: h) :: r

/-- Models Python `s.split(sep)` for a one-character separator (as used with
`'/'` on topics and `','` on capability strings). -/
def pySplit (s : String) (sep : Char) : List String :=
  (splitChar sep s.data).map String.mk

/-- Models Python `s.upper()` on the ASCII range (identifiers here are
MAC-address strings; non-ASCII letters do not occur in them). -/
def pyUpper (s : String) : String := String.mk (s.data.map Char.toUpper)

/-- UTF-8 byte length of a string: models `len(s.encode('utf-8'))`. -/
def utf8Len (s : String) : Nat := (s.data.map Char.utf8Size).sum

/-- Lowercase hexadecimal digit, as produced by Python's JSON encoder. -/
def hexDigit (n : Nat) : Char :=
  if n < 10 then Char.ofNat (48 + n) else Char.ofNat (87 + n)

/-- Four-digit lowercase hex rendering used in `\uXXXX` escapes. -/
def hex4 (n : Nat) : List Char :=
  [hexDigit (n / 4096 % 16), hexDigit (n / 256 % 16), hexDigit (n / 16 % 16),
   hexDigit (n % 16)]

/-- Escape of one character inside a JSON string literal, as produced by
`json.dumps` with its default `ensure_ascii=True`: two-character escapes for
the usual control characters, `\uXXXX` (with a surrogate pair above the BMP)
for other control and all non-ASCII characters. -/
def escChar (c : Char) : List Char :=
  if c = '"' then ['\\', '"']
  else if c = '\\' then ['\\', '\\']
  else if c = '\n' then ['\\', 'n']
  else if c = '\r' then ['\\', 'r']
  else if c = '\t' then ['\\', 't']
  else if c = '\x08' then ['\\', 'b']
  else if c = '\x0c' then ['\\', 'f']
  else if c.toNat < 32 then '\\' :: 'u' :: hex4 c.toNat
  else if c.toNat < 127 then [c]
  else if c.toNat < 65536 then '\\' :: 'u' :: hex4 c.toNat
  else
    '\\' :: 'u' :: hex4 (55296 + (c.toNat - 65536) / 1024) ++
      ('\\' :: 'u' :: hex4 (56320 + (c.toNat - 65536) % 1024))

/-- JSON string-literal escaping of a character list. -/
def escList : List Char → List Char
  | [] => []
  | c :: t => escChar c ++ escList t

/-- JSON string-literal escaping of a string (without the quotes). -/
def escapeS (s : String) : String := String.mk (escList s.data)

/-- Comma-with-space separated concatenation, as produced by `json.dumps`
with its default separators. -/
def sepBy (sep : String) : List String → String
  | [] => ""
  | [x] => x
  | x :: y :: t => x ++ sep ++ sepBy sep (y :: t)

mutual
/-- Models `json.dumps(v)` (default separators, `ensure_ascii=True`) on a
decoded JSON value. -/
def dumpsVal : Json → String
  | Json.null => "null"
  | Json.bool true => "true"
  | Json.bool false => "false"
  | Json.num n => toString n
  | Json.str s => "\"" ++ escapeS s ++ "\""
  | Json.arr xs => "[" ++ sepBy ", " (dumpsElems xs) ++ "]"
  | Json.obj kvs => "\x7b" ++ sepBy ", " (dumpsMembers kvs) ++ "\x7d"

/-- Serialization of the elements of a JSON array. -/
def dumpsElems : List Json → List String
  | [] => []
  | x :: t => dumpsVal x :: dumpsElems t

/-- Serialization of the members of a JSON object. -/
def dumpsMembers : List (String × Json) → List String
  | [] => []
  | (k, v) :: t => ("\"" ++ escapeS k ++ "\": " ++ dumpsVal v) :: dumpsMembers t
end

/-- Rendering of a Python dict key as a JSON object key, following
`json.dumps` key coercion: strings stay, `int`/`bool`/`None` keys become
their JSON text.  Unhashable keys cannot occur in a Python dict; for totality
they are rendered via `dumpsVal` (unreachable from the modelled code). -/
def keyString : Json → String
  | Json.str s => s
  | Json.num n => toString n
  | Json.bool true => "true"
  | Json.bool false => "false"
  | Json.null => "null"
  | j => dumpsVal j

/-- Attribute mapping of one device: a Python dict whose keys come from the
`type` fields of status records (decoded JSON values). -/
abbrev Attrs : Type := List (Json × Json)

/-- Models `json.dumps(updated_attributes)` on an attributes dict, as used by
the per-device size check in `update_device`. -/
def dumpsAttrs (kvs : List (Json × Json)) : String :=
  "\x7b" ++
    sepBy ", "
      (kvs.map fun kv => "\"" ++ escapeS (keyString kv.1) ++ "\": " ++ dumpsVal kv.2) ++
    "\x7d"

/-- One stored device record, as created and maintained by `update_device`. -/
structure Device where
  mac : String
  first_seen : Int
  last_seen : Int
  capabilities : List String
  attributes : List (Json × Json)
deriving DecidableEq

/-- The in-memory device dict `self._devices`: identifier to record, in
insertion order. -/
abbrev Store : Type := List (String × Device)

/-- Full storage state: the in-memory dict plus the persisted
`devices.json` snapshot. -/
structure State where
  mem : Store
  disk : Store
deriving DecidableEq

/-- The empty storage state (fresh start, no snapshot content). -/
def emptyState : State := ⟨[], []⟩

/-- `DeviceStorage.MAX_DEVICES`. -/
def MAX_DEVICES : Nat := 200

/-- `DeviceStorage.MAX_DEVICE_SIZE_BYTES` (1 MiB). -/
def MAX_DEVICE_SIZE_BYTES : Nat := 1024 * 1024

/-- `DeviceStorage.MAX_TOTAL_SIZE_BYTES` (10 MiB, advisory only). -/
def MAX_TOTAL_SIZE_BYTES : Nat := 10 * 1024 * 1024

/-- Result of a parsed status message: the dict
`{'mac': ..., 'attributes': ..., 'timestamp': ...}`.  `mac` is `Json.null`
when no record carried a usable `dn` (Python `None`). -/
structure ParsedStatus where
  mac : Json
  attributes : List (Json × Json)
  timestamp : Int
deriving DecidableEq

/-- The record loop of `parse_status_message`: walks the decoded list,
skipping non-dict items, taking the identifier from the first dict whose
`dn` is not `None`, and assigning `parsed_data[type] = value` for every item
with truthy `type` and non-`None` `value`.  Returns `none` when such an
assignment uses an unhashable key (`TypeError`, caught by the enclosing
`except` clause). -/
def parseItems : List Json → Json → List (Json × Json) →
    Option (Json × List (Json × Json))
  | [], mac, acc => some (mac, acc)
  | item :: rest, mac, acc =>
    match item with
    | Json.obj kvs =>
      let mac' := if mac = Json.null then pyGet kvs "dn" else mac
      let t := pyGet kvs "type"
      let v := pyGet kvs "value"
      if pyTruthy t = true ∧ v ≠ Json.null then
        if hashableKey t = true then parseItems rest mac' (aIns acc t v)
        else none
      else parseItems rest mac' acc
    | _ => parseItems rest mac acc

/-- `DeviceStorage.parse_status_message`.  The payload argument is the result
of `json.loads`: `none` models a `JSONDecodeError` (caught, yielding `None`).
A decoded value that is not a non-empty list yields `None`.  The function
never lets an exception escape: every caught error is a `none` result. -/
def parse_status_message (now : Int) (payload : Option Json) :
    Option ParsedStatus :=
  match payload with
  | none => none
  | some j =>
    match j with
    | Json.arr (x :: xs) =>
      match parseItems (x :: xs) Json.null [] with
      | some (mac, attrs) => some ⟨mac, attrs, now⟩
      | none => none
    | _ => none

/-- Outcome of `update_device`: a returned boolean with the resulting state,
or an uncaught exception (`AttributeError` from `caps_str.split`) with the
state as already mutated at the raise point. -/
inductive UpdOut where
  | ret (accepted : Bool) (st : State) : UpdOut
  | exn (st : State) : UpdOut
deriving DecidableEq

/-- The fresh record created for a previously-unseen identifier. -/
def freshDevice (mac : String) (now : Int) : Device :=
  ⟨mac, now, now, [], []⟩

/-- Aliasing effect of mutating the local `device` dict: for an existing
identifier the stored record is the same object, so the store already holds
the mutated value; for a new identifier the local dict is not yet linked. -/
def aliasMem (isNew : Bool) (mem : Store) (mac : String) (d : Device) : Store :=
  if isNew then mem else aIns mem mac d

/-- Final store-and-save step of `update_device`
(`self._devices[mac] = device; self._save_devices(); return True`).
`_save_devices` swallows its own exceptions; `saveOk = false` models a failed
temp-write/rename, which leaves the snapshot unchanged. -/
def uDevCommit (saveOk : Bool) (mac : String) (d : Device) (st : State) : UpdOut :=
  let mem' := aIns st.mem mac d
  UpdOut.ret true ⟨mem', if saveOk then mem' else st.disk⟩

/-- Capability extraction step of `update_device`: when the (merged)
attributes contain `supportAttributes`, recompute
`device['capabilities'] = [cap.strip() for cap in caps_str.split(',')]`.
A non-string value raises `AttributeError` (uncaught here). -/
def uDevCaps (saveOk : Bool) (mac : String) (d : Device) (st : State) : UpdOut :=
  match aGet d.attributes (Json.str "supportAttributes") with
  | some (Json.str s) =>
    uDevCommit saveOk mac
      { d with capabilities := (pySplit s ',').map pyStrip } st
  | some _ => UpdOut.exn st
  | none => uDevCommit saveOk mac d st

/-- Attribute-merge and size-check step of `update_device`, entered with the
`last_seen` timestamp already written (and, for an existing identifier,
already visible in the store through aliasing). -/
def uDevGo (saveOk : Bool) (mac : String) (sa : Option (List (Json × Json)))
    (isNew : Bool) (d1 : Device) (st : State) : UpdOut :=
  match sa with
  | some b =>
    let merged := aMerge d1.attributes b
    if MAX_DEVICE_SIZE_BYTES < utf8Len (dumpsAttrs merged) then
      UpdOut.ret false ⟨aliasMem isNew st.mem mac d1, st.disk⟩
    else
      uDevCaps saveOk mac { d1 with attributes := merged }
        ⟨aliasMem isNew st.mem mac { d1 with attributes := merged }, st.disk⟩
  | none => uDevCaps saveOk mac d1 ⟨aliasMem isNew st.mem mac d1, st.disk⟩

/-- `DeviceStorage.update_device`.  `sa` is `status_data['attributes']` when
that key is present (`parse_status_message` always supplies it), else `none`.
`now` is `int(time.time() * 1000)`. -/
def update_device (now : Int) (saveOk : Bool) (mac : String)
    (sa : Option (List (Json × Json))) (st : State) : UpdOut :=
  if mac = "" then UpdOut.ret false st
  else
    let MAC := pyUpper mac
    match aGet st.mem MAC with
    | none =>
      if MAX_DEVICES ≤ st.mem.length then UpdOut.ret false st
      else uDevGo saveOk MAC sa true (freshDevice MAC now) st
    | some d0 => uDevGo saveOk MAC sa false { d0 with last_seen := now } st

/-- The `except Exception` clause of `process_mqtt_message` around the
`update_device` call: a returned boolean passes through, an escaped
exception becomes a `False` return with the state as mutated so far. -/
def liftOut : UpdOut → Bool × State
  | UpdOut.ret b st => (b, st)
  | UpdOut.exn st => (false, st)

/-- `DeviceStorage.process_mqtt_message`.  Splits the topic, filters to
`wifielement/<mac>/status`, parses the payload, applies the
five-attribute comprehensiveness threshold and hands off to `update_device`
with the identifier taken from the topic. -/
def process_mqtt_message (now : Int) (saveOk : Bool) (topic : String)
    (payload : Option Json) (st : State) : Bool × State :=
  match pySplit topic '/' with
  | p0 :: p1 :: p2 :: _ =>
    if p0 ≠ "wifielement" then (false, st)
    else if p2 ≠ "status" then (false, st)
    else
      match parse_status_message now payload with
      | none => (false, st)
      | some parsed =>
        if parsed.attributes.length < 5 then (false, st)
        else liftOut (update_device now saveOk p1 (some parsed.attributes) st)
  | _ => (false, st)

/-- `DeviceStorage.get_device`. -/
def get_device (st : State) (mac : String) : Option Device :=
  aGet st.mem (pyUpper mac)

/-- `DeviceStorage.get_all_devices` (returns a shallow copy of the dict). -/
def get_all_devices (st : State) : Store := st.mem

/-- `DeviceStorage.get_device_count`. -/
def get_device_count (st : State) : Nat := st.mem.length

/-- `DeviceStorage.cleanup_old_devices`.  The cutoff is
`int((time.time() - max_age_days*24*3600) * 1000)`; the wall-clock part is
passed in already computed.  Removes every record with `last_seen` below the
cutoff and persists once if anything was removed. -/
def cleanup_old_devices (cutoff_time : Int) (saveOk : Bool) (st : State) :
    Nat × State :=
  let old := (st.mem.filter fun kd => kd.2.last_seen < cutoff_time).map Prod.fst
  let mem' := st.mem.filter fun kd => ¬ kd.2.last_seen < cutoff_time
  if old = [] then (0, st)
  else (old.length, ⟨mem', if saveOk then mem' else st.disk⟩)

/-- The pure fields of `DeviceStorage.get_storage_stats`.  The percentage
fields are Python floats and `file_size_bytes` is a filesystem stat; both are
outside the shallow embedding and carry no verified claim. -/
structure StorageStats where
  total_devices : Nat
  max_devices : Nat
  max_device_size_bytes : Nat
  max_total_size_bytes : Nat
  last_updated : Int
deriving DecidableEq

/-- `DeviceStorage.get_storage_stats` (pure fields; see `StorageStats`).
`last_updated` is `max([dev['last_seen'] ...] or [0])`. -/
def get_storage_stats (st : State) : StorageStats :=
  let lastSeens := st.mem.map fun kd => kd.2.last_seen
  ⟨st.mem.length, MAX_DEVICES, MAX_DEVICE_SIZE_BYTES, MAX_TOTAL_SIZE_BYTES,
   match lastSeens with
   | [] => 0
   | x :: t => t.foldl max x⟩

/-- State after an `update_device` call, whether it returned or raised. -/
def stateAfter : UpdOut → State
  | UpdOut.ret _ st => st
  | UpdOut.exn st => st

/-- One recorded `update_device` call (timestamp, save success, arguments). -/
structure UpdCall where
  now : Int
  saveOk : Bool
  mac : String
  sa : Option (List (Json × Json))

/-- Replay a sequence of `update_device` calls. -/
def applyUpdates (calls : List UpdCall) (st : State) : State :=
  calls.foldl (fun s c => stateAfter (update_device c.now c.saveOk c.mac c.sa s)) st

/-- One operation of the storage API, for invariant claims ranging over all
operations.  The three read-only accessors perform no store mutation in the
source, so their state transition is the identity. -/
inductive Op where
  | upd (now : Int) (saveOk : Bool) (mac : String)
      (sa : Option (List (Json × Json))) : Op
  | cleanup (cutoff : Int) (saveOk : Bool) : Op
  | getDev (mac : String) : Op
  | getAll : Op
  | stats : Op

/-- State transition of one API operation. -/
def applyOp (st : State) : Op → State
  | Op.upd now saveOk mac sa => stateAfter (update_device now saveOk mac sa st)
  | Op.cleanup cutoff saveOk => (cleanup_old_devices cutoff saveOk st).2
  | Op.getDev mac => (fun _ => st) (get_device st mac)
  | Op.getAll => (fun _ => st) (get_all_devices st)
  | Op.stats => (fun _ => st) (get_storage_stats st)

/-- Replay a sequence of API operations. -/
def applyOps (ops : List Op) (st : State) : State := ops.foldl applyOp st

/-- The contribution of one status record to the attribute mapping: a record
that is a key-value object with truthy `type` and non-`None` `value`
contributes the pair `(type, value)`; every other record contributes
nothing.  (Statement-side characterization of `parse_status_message`.) -/
def contribOf : Json → Option (Json × Json)
  | Json.obj kvs =>
    let t := pyGet kvs "type"
    let v := pyGet kvs "value"
    if pyTruthy t = true ∧ v ≠ Json.null then some (t, v) else none
  | _ => none

/-- All contributions of a record list, in order. -/
def contribs (items : List Json) : List (Json × Json) := items.filterMap contribOf

/-- The winning (last) contribution for a given attribute name. -/
def lastContrib (items : List Json) (k : Json) : Option Json :=
  (((contribs items).filter fun e => decide (e.1 = k)).getLast?).map Prod.snd

/-- An attribute mapping whose `supportAttributes` entry (if any) holds a
string, so the capability recomputation cannot raise. -/
def capsOk (attrs : List (Json × Json)) : Prop :=
  ∀ v, aGet attrs (Json.str "supportAttributes") = some v → ∃ s, v = Json.str s

/-- Structural store invariant: every stored record's `mac` field equals its
key, and every key is its own uppercase canonicalization. -/
def storeInv (st : State) : Prop :=
  ∀ kd : String × Device, kd ∈ st.mem → kd.2.mac = kd.1 ∧ pyUpper kd.1 = kd.1

/-- Bounded-store invariant: distinct keys, and at most `MAX_DEVICES` of
them. -/
def sizeInv (st : State) : Prop :=
  (aKeys st.mem).Nodup ∧ st.mem.length ≤ MAX_DEVICES

/-- A one-mebibyte string of `a` characters, used to exercise the
per-device size ceiling. -/
def bigStr : String := String.mk (List.replicate 1048576 'a')

/-- An attribute mapping whose serialization exceeds
`MAX_DEVICE_SIZE_BYTES`. -/
def bigAttrs : List (Json × Json) := [(Json.str "x", Json.str bigStr)]

/-- A stored device carrying `bigAttrs`, with both timestamps 0. -/
def bigDev : Device := ⟨"M", 0, 0, [], bigAttrs⟩

/-- A store state holding only `bigDev` under key `"M"`. -/
def bigState : State := ⟨[("M", bigDev)], []⟩

/-- A store state holding exactly `MAX_DEVICES` records with keys
`K0` … `K199`, each with empty attributes. -/
def fullState : State :=
  ⟨(List.range MAX_DEVICES).map fun i =>
    ("K" ++ toString i, ⟨"K" ++ toString i, 0, 0, [], []⟩), []⟩

/-! ### Association-list algebra -/

theorem aGet_aIns_self {α β : Type} [DecidableEq α] (l : List (α × β)) (k : α) (v : β) :
    aGet (aIns l k v) k = some v := by
  induction l with
  | nil => simp [aIns, aGet]
  | cons kv t ih =>
    obtain ⟨k', v'⟩ := kv
    by_cases h : k' = k
    · simp [aIns, aGet, h]
    · simp [aIns, aGet, h, ih]

theorem aGet_aIns_other {α β : Type} [DecidableEq α] (l : List (α × β)) (k k' : α)
    (v : β) (h : k' ≠ k) : aGet (aIns l k' v) k = aGet l k := by
  induction l with
  | nil => simp [aIns, aGet, h]
  | cons kv t ih =>
    obtain ⟨k0, v0⟩ := kv
    by_cases h0 : k0 = k'
    · subst h0
      simp [aIns, aGet, h]
    · simp only [aIns, if_neg h0, aGet]
      by_cases h1 : k0 = k
      · simp [h1]
      · simp [h1, ih]

theorem aKeys_aIns_mem {α β : Type} [DecidableEq α] (l : List (α × β)) (k : α) (v : β)
    (h : k ∈ aKeys l) : aKeys (aIns l k v) = aKeys l := by
  induction l with
  | nil => simp [aKeys] at h
  | cons kv t ih =>
    obtain ⟨k0, v0⟩ := kv
    by_cases h0 : k0 = k
    · simp [aIns, h0, aKeys]
    · have h' : k ∈ aKeys t := by
        simp only [aKeys, List.map_cons, List.mem_cons] at h
        rcases h with h | h
        · exact absurd h.symm h0
        · simpa [aKeys] using h
      have ih' := ih h'
      simp only [aKeys] at ih'
      simp [aIns, h0, aKeys, ih']

theorem aKeys_aIns_not_mem {α β : Type} [DecidableEq α] (l : List (α × β)) (k : α)
    (v : β) (h : ¬ k ∈ aKeys l) : aKeys (aIns l k v) = aKeys l ++ [k] := by
  induction l with
  | nil => simp [aIns, aKeys]
  | cons kv t ih =>
    obtain ⟨k0, v0⟩ := kv
    simp only [aKeys, List.map_cons, List.mem_cons] at h
    push_neg at h
    have ih' := ih (by simpa [aKeys] using h.2)
    simp only [aKeys] at ih'
    simp [aIns, Ne.symm h.1, aKeys, ih']

theorem length_aIns_mem {α β : Type} [DecidableEq α] (l : List (α × β)) (k : α) (v : β)
    (h : k ∈ aKeys l) : (aIns l k v).length = l.length := by
  have h1 : (aKeys (aIns l k v)).length = (aKeys l).length := by
    rw [aKeys_aIns_mem l k v h]
  simpa [aKeys] using h1

theorem length_aIns_not_mem {α β : Type} [DecidableEq α] (l : List (α × β)) (k : α)
    (v : β) (h : ¬ k ∈ aKeys l) : (aIns l k v).length = l.length + 1 := by
  have h1 : (aKeys (aIns l k v)).length = (aKeys l).length + 1 := by
    rw [aKeys_aIns_not_mem l k v h]
    simp
  simpa [aKeys] using h1

theorem aGet_eq_none_iff {α β : Type} [DecidableEq α] (l : List (α × β)) (k : α) :
    aGet l k = none ↔ ¬ k ∈ aKeys l := by
  induction l with
  | nil => simp [aGet, aKeys]
  | cons kv t ih =>
    obtain ⟨k0, v0⟩ := kv
    by_cases h0 : k0 = k
    · simp [aGet, aKeys, h0]
    · simp [aGet, aKeys, h0, ih, Ne.symm h0]

theorem aGet_mem {α β : Type} [DecidableEq α] (l : List (α × β)) (k : α) (v : β)
    (h : aGet l k = some v) : (k, v) ∈ l := by
  induction l with
  | nil => simp [aGet] at h
  | cons kv t ih =>
    obtain ⟨k0, v0⟩ := kv
    by_cases h0 : k0 = k
    · subst h0
      have hv : v0 = v := by simpa [aGet] using h
      simp [hv]
    · simp only [aGet, if_neg h0] at h
      exact List.mem_cons_of_mem _ (ih h)

theorem mem_aIns {α β : Type} [DecidableEq α] (l : List (α × β)) (k : α) (v : β)
    (kv : α × β) (h : kv ∈ aIns l k v) : kv ∈ l ∨ kv = (k, v) := by
  induction l with
  | nil =>
    simp only [aIns, List.mem_singleton] at h
    exact Or.inr h
  | cons kv0 t ih =>
    obtain ⟨k0, v0⟩ := kv0
    by_cases h0 : k0 = k
    · subst h0
      simp [aIns] at h
      rcases h with h | h
      · exact Or.inr h
      · exact Or.inl (List.mem_cons_of_mem _ h)
    · simp only [aIns, if_neg h0, List.mem_cons] at h
      rcases h with h | h
      · exact Or.inl (by simp [h])
      · rcases ih h with h1 | h1
        · exact Or.inl (List.mem_cons_of_mem _ h1)
        · exact Or.inr h1

theorem aIns_aIns_same {α β : Type} [DecidableEq α] (l : List (α × β)) (k : α)
    (v w : β) : aIns (aIns l k v) k w = aIns l k w := by
  induction l with
  | nil => simp [aIns]
  | cons kv t ih =>
    obtain ⟨k0, v0⟩ := kv
    by_cases h0 : k0 = k
    · simp [aIns, h0]
    · simp [aIns, h0, ih]

theorem aIns_comm_of_mem {α β : Type} [DecidableEq α] (l : List (α × β)) (k k' : α)
    (v w : β) (hne : k ≠ k') (hmem : k ∈ aKeys l) :
    aIns (aIns l k v) k' w = aIns (aIns l k' w) k v := by
  induction l with
  | nil => simp [aKeys] at hmem
  | cons kv t ih =>
    obtain ⟨k0, v0⟩ := kv
    by_cases h0 : k0 = k
    · subst h0
      simp [aIns, hne, Ne.symm hne]
    · have hmem' : k ∈ aKeys t := by
        simp only [aKeys, List.map_cons, List.mem_cons] at hmem
        rcases hmem with h | h
        · exact absurd h.symm h0
        · simpa [aKeys] using h
      by_cases h1 : k0 = k'
      · subst h1
        simp [aIns, h0, Ne.symm hne]
      · simp [aIns, h0, h1, ih hmem']

theorem aIns_of_aGet_eq {α β : Type} [DecidableEq α] (l : List (α × β)) (k : α)
    (v : β) (h : aGet l k = some v) : aIns l k v = l := by
  induction l with
  | nil => simp [aGet] at h
  | cons kv t ih =>
    obtain ⟨k0, v0⟩ := kv
    by_cases h0 : k0 = k
    · subst h0
      have hv : v0 = v := by simpa [aGet] using h
      simp [aIns, hv]
    · simp only [aGet, if_neg h0] at h
      simp [aIns, h0, ih h]

theorem aKeys_aMerge_sub {α β : Type} [DecidableEq α] (a b : List (α × β)) (k : α)
    (h : k ∈ aKeys a) : k ∈ aKeys (aMerge a b) := by
  induction b generalizing a with
  | nil => simpa [aMerge] using h
  | cons kv t ih =>
    obtain ⟨k0, v0⟩ := kv
    show k ∈ aKeys (aMerge (aIns a k0 v0) t)
    refine ih _ ?_
    by_cases h0 : k0 ∈ aKeys a
    · rw [aKeys_aIns_mem a k0 v0 h0]
      exact h
    · rw [aKeys_aIns_not_mem a k0 v0 h0]
      exact List.mem_append_left _ h

theorem aGet_aMerge_not_mem {α β : Type} [DecidableEq α] (a b : List (α × β)) (k : α)
    (h : ¬ k ∈ aKeys b) : aGet (aMerge a b) k = aGet a k := by
  induction b generalizing a with
  | nil => simp [aMerge]
  | cons kv t ih =>
    obtain ⟨k0, v0⟩ := kv
    simp only [aKeys, List.map_cons, List.mem_cons] at h
    push_neg at h
    show aGet (aMerge (aIns a k0 v0) t) k = aGet a k
    rw [ih _ (by simpa [aKeys] using h.2), aGet_aIns_other a k k0 v0 (Ne.symm h.1)]

theorem aMerge_aIns_of_mem {α β : Type} [DecidableEq α] (b : List (α × β))
    (m : List (α × β)) (k : α) (v : β) (hkb : k ∈ aKeys b) (hkm : k ∈ aKeys m) :
    aMerge (aIns m k v) b = aMerge m b := by
  induction b generalizing m v with
  | nil => simp [aKeys] at hkb
  | cons kv t ih =>
    obtain ⟨k0, v0⟩ := kv
    by_cases h0 : k0 = k
    · subst h0
      show aMerge (aIns (aIns m k0 v) k0 v0) t = aMerge (aIns m k0 v0) t
      rw [aIns_aIns_same]
    · have hkb' : k ∈ aKeys t := by
        simp only [aKeys, List.map_cons, List.mem_cons] at hkb
        rcases hkb with h | h
        · exact absurd h.symm h0
        · simpa [aKeys] using h
      show aMerge (aIns (aIns m k v) k0 v0) t = aMerge (aIns m k0 v0) t
      rw [aIns_comm_of_mem m k k0 v v0 (fun he => h0 he.symm) hkm]
      refine ih _ v hkb' ?_
      by_cases h1 : k0 ∈ aKeys m
      · rw [aKeys_aIns_mem m k0 v0 h1]
        exact hkm
      · rw [aKeys_aIns_not_mem m k0 v0 h1]
        exact List.mem_append_left _ hkm

theorem aMerge_idem {α β : Type} [DecidableEq α] (a b : List (α × β)) :
    aMerge (aMerge a b) b = aMerge a b := by
  induction b generalizing a with
  | nil => simp [aMerge]
  | cons kv t ih =>
    obtain ⟨k, v⟩ := kv
    show aMerge (aIns (aMerge (aIns a k v) t) k v) t = aMerge (aIns a k v) t
    by_cases hkt : k ∈ aKeys t
    · rw [aMerge_aIns_of_mem t _ k v hkt
        (aKeys_aMerge_sub _ _ _ (by
          by_cases h1 : k ∈ aKeys a
          · rw [aKeys_aIns_mem a k v h1]
            exact h1
          · rw [aKeys_aIns_not_mem a k v h1]
            exact List.mem_append_right _ (by simp)))]
      exact ih _
    · have hlook : aGet (aMerge (aIns a k v) t) k = some v := by
        rw [aGet_aMerge_not_mem _ _ _ hkt, aGet_aIns_self]
      rw [aIns_of_aGet_eq _ _ _ hlook]
      exact ih _

/-! ### Status Parser: characterization of the attribute mapping -/

theorem aKeys_nodup_aIns {α β : Type} [DecidableEq α] (l : List (α × β)) (k : α)
    (v : β) (h : (aKeys l).Nodup) : (aKeys (aIns l k v)).Nodup := by
  by_cases hm : k ∈ aKeys l
  · rw [aKeys_aIns_mem l k v hm]
    exact h
  · rw [aKeys_aIns_not_mem l k v hm]
    simp [List.nodup_append, h, hm]

theorem parseItems_nodup : ∀ (items : List Json) (mac : Json)
    (acc : List (Json × Json)) (res : Json × List (Json × Json)),
    parseItems items mac acc = some res → (aKeys acc).Nodup → (aKeys res.2).Nodup := by
  intro items
  induction items with
  | nil =>
    intro mac acc res h hn
    simp only [parseItems, Option.some.injEq] at h
    rw [← h]
    exact hn
  | cons item rest ih =>
    intro mac acc res h hn
    cases item with
    | obj kvs =>
      simp only [parseItems] at h
      by_cases hc : pyTruthy (pyGet kvs "type") = true ∧ pyGet kvs "value" ≠ Json.null
      · rw [if_pos hc] at h
        by_cases hh : hashableKey (pyGet kvs "type") = true
        · rw [if_pos hh] at h
          exact ih _ _ _ h (aKeys_nodup_aIns _ _ _ hn)
        · rw [if_neg hh] at h
          exact absurd h (by simp)
      · rw [if_neg hc] at h
        exact ih _ _ _ h hn
    | null => exact ih _ _ _ h hn
    | bool b => exact ih _ _ _ h hn
    | num n => exact ih _ _ _ h hn
    | str s => exact ih _ _ _ h hn
    | arr xs => exact ih _ _ _ h hn

theorem getLast?_cons_or {α : Type} (a : α) (l : List α) :
    (a :: l).getLast? = l.getLast?.or (some a) := by
  cases l with
  | nil => rfl
  | cons b t => simp [List.getLast?_cons, Option.or]

theorem lastContrib_cons_some (item : Json) (rest : List Json) (t v : Json)
    (hc : contribOf item = some (t, v)) (k : Json) :
    lastContrib (item :: rest) k =
      if t = k then (lastContrib rest k).or (some v) else lastContrib rest k := by
  unfold lastContrib contribs
  rw [List.filterMap_cons_some hc]
  by_cases ht : t = k
  · rw [if_pos ht]
    rw [List.filter_cons]
    rw [if_pos (by simpa using ht)]
    rw [getLast?_cons_or]
    cases hF : ((List.filterMap contribOf rest).filter fun e => decide (e.1 = k)).getLast? with
    | none => simp [hF, Option.or]
    | some e => simp [hF, Option.or]
  · rw [if_neg ht]
    rw [List.filter_cons]
    rw [if_neg (by simpa using ht)]

theorem lastContrib_cons_none (item : Json) (rest : List Json)
    (hc : contribOf item = none) (k : Json) :
    lastContrib (item :: rest) k = lastContrib rest k := by
  unfold lastContrib contribs
  rw [List.filterMap_cons_none hc]

theorem parseItems_aGet : ∀ (items : List Json) (mac : Json)
    (acc : List (Json × Json)) (res : Json × List (Json × Json)),
    parseItems items mac acc = some res →
    ∀ k, aGet res.2 k = (lastContrib items k).or (aGet acc k) := by
  intro items
  induction items with
  | nil =>
    intro mac acc res h k
    simp only [parseItems, Option.some.injEq] at h
    rw [← h]
    simp [lastContrib, contribs, Option.or]
  | cons item rest ih =>
    intro mac acc res h k
    cases item with
    | obj kvs =>
      simp only [parseItems] at h
      by_cases hc : pyTruthy (pyGet kvs "type") = true ∧ pyGet kvs "value" ≠ Json.null
      · rw [if_pos hc] at h
        by_cases hh : hashableKey (pyGet kvs "type") = true
        · rw [if_pos hh] at h
          have ihh := ih _ _ _ h k
          have hco : contribOf (Json.obj kvs) =
              some (pyGet kvs "type", pyGet kvs "value") := by
            simp only [contribOf]
            rw [if_pos hc]
          rw [lastContrib_cons_some _ _ _ _ hco k]
          by_cases ht : pyGet kvs "type" = k
          · rw [if_pos ht]
            rw [ihh, ht, aGet_aIns_self]
            cases hL : lastContrib rest k <;> rfl
          · rw [if_neg ht]
            rw [ihh, aGet_aIns_other acc k _ _ ht]
        · rw [if_neg hh] at h
          exact absurd h (by simp)
      · rw [if_neg hc] at h
        have hco : contribOf (Json.obj kvs) = none := by
          simp only [contribOf]
          rw [if_neg hc]
        rw [lastContrib_cons_none _ _ hco k]
        exact ih _ _ _ h k
    | null =>
      rw [lastContrib_cons_none Json.null rest rfl k]
      exact ih _ _ _ h k
    | bool b =>
      rw [lastContrib_cons_none (Json.bool b) rest rfl k]
      exact ih _ _ _ h k
    | num n =>
      rw [lastContrib_cons_none (Json.num n) rest rfl k]
      exact ih _ _ _ h k
    | str s =>
      rw [lastContrib_cons_none (Json.str s) rest rfl k]
      exact ih _ _ _ h k
    | arr xs =>
      rw [lastContrib_cons_none (Json.arr xs) rest rfl k]
      exact ih _ _ _ h k

/-! ### Claim theorems: Status Parser -/

/-- C5: for every raw text payload, `parse_status_message` is total and
never raises past its boundary: if the payload does not decode as a
non-empty sequence (not valid JSON, not a list, or an empty list) it
returns no result (`none`).  Decode errors are modelled by the `none`
payload; the embedding is a total function, mirroring the `except` clause
that converts every caught decode error into a `None` return. -/
theorem C5_parser_totality : ∀ (now : Int) (p : Option Json),
    (p = none ∨ ∃ j, p = some j ∧ ∀ l, j = Json.arr l → l = []) →
    parse_status_message now p = none := by
  intro now p h
  rcases h with h | ⟨j, hp, hj⟩
  · rw [h]
    rfl
  · subst hp
    cases j with
    | arr xs =>
      cases xs with
      | nil => rfl
      | cons x t =>
        have := hj (x :: t) rfl
        exact absurd this (by simp)
    | null => rfl
    | bool b => rfl
    | num n => rfl
    | str s => rfl
    | obj kvs => rfl

/-- Witness for C5 at concrete inputs: a decode failure and a non-list
payload both yield `none`. -/
theorem C5_parser_totality_witness :
    parse_status_message 0 none = none ∧
    parse_status_message 0 (some (Json.num 3)) = none :=
  ⟨C5_parser_totality 0 none (Or.inl rfl),
   C5_parser_totality 0 (some (Json.num 3))
     (Or.inr ⟨Json.num 3, rfl, fun _ h => Json.noConfusion h⟩)⟩

/-- C6 counterexample: the parser stores the decoded `value` as-is, not its
stringification.  The record `{"dn":"M","type":"b","value":25}` yields the
attribute entry `("b", 25)` (a JSON number), not `("b", "25")` as the
claim's "stringified value" requires. -/
theorem C6_counterexample :
    parse_status_message 0
        (some (Json.arr [Json.obj
          [("dn", Json.str "M"), ("type", Json.str "b"), ("value", Json.num 25)]])) =
      some ⟨Json.str "M", [(Json.str "b", Json.num 25)], 0⟩ ∧
    Json.num 25 ≠ Json.str "25" := by
  constructor
  · rfl
  · decide

/-- C6 (amended): for every payload decoding as a non-empty sequence on
which the parse succeeds, the output attribute mapping has one entry per
contributing record type — a record contributes exactly when it is a
key-value object with truthy `type` and non-`None` `value` — the entry
value is the decoded `value` as-is (not stringified), the last record wins
for a duplicate `type`, and non-contributing records are skipped
individually. -/
theorem C6_parser_entries : ∀ (now : Int) (items : List Json) (parsed : ParsedStatus),
    parse_status_message now (some (Json.arr items)) = some parsed →
    (aKeys parsed.attributes).Nodup ∧
    ∀ k, aGet parsed.attributes k = lastContrib items k := by
  intro now items parsed h
  cases items with
  | nil => exact absurd h (by simp [parse_status_message])
  | cons x xs =>
    simp only [parse_status_message] at h
    cases hp : parseItems (x :: xs) Json.null [] with
    | none =>
      rw [hp] at h
      exact absurd h (by simp)
    | some res =>
      obtain ⟨mc, ats⟩ := res
      rw [hp] at h
      simp only [Option.some.injEq] at h
      constructor
      · have hn := parseItems_nodup (x :: xs) Json.null [] (mc, ats) hp (by simp [aKeys])
        rw [← h]
        exact hn
      · intro k
        have hg := parseItems_aGet (x :: xs) Json.null [] (mc, ats) hp k
        rw [← h]
        simpa [aGet, Option.or_none] using hg

/-- Witness for C6 (amended) at a concrete two-record payload with a
duplicate `type`: the hypothesis parse succeeds, keys are distinct, and the
later record wins. -/
theorem C6_parser_entries_witness :
    parse_status_message 3
        (some (Json.arr [Json.obj [("type", Json.str "b"), ("value", Json.num 1)],
                         Json.obj [("type", Json.str "b"), ("value", Json.num 2)]])) =
      some ⟨Json.null, [(Json.str "b", Json.num 2)], 3⟩ ∧
    ((aKeys ([(Json.str "b", Json.num 2)] : List (Json × Json))).Nodup ∧
     ∀ k, aGet ([(Json.str "b", Json.num 2)] : List (Json × Json)) k =
       lastContrib [Json.obj [("type", Json.str "b"), ("value", Json.num 1)],
                    Json.obj [("type", Json.str "b"), ("value", Json.num 2)]] k) :=
  ⟨rfl, C6_parser_entries 3 _ ⟨Json.null, [(Json.str "b", Json.num 2)], 3⟩ rfl⟩

/-! ### Claim theorems: Ingestion Listener -/

/-- C3 counterexample: on topic `wifielement/AA:BB/status` with a payload
whose records carry `dn = "CC:DD"` (and five attributes), the listener
stores the device under the topic-derived identifier `AA:BB`; no record is
created for the parser-produced identifier `CC:DD`, refuting the claim that
the Device Store update is called with the `dn`-derived identifier. -/
theorem C3_counterexample :
    (parse_status_message 0 (some (Json.arr [
        Json.obj [("dn", Json.str "CC:DD"), ("type", Json.str "t1"), ("value", Json.str "1")],
        Json.obj [("dn", Json.str "CC:DD"), ("type", Json.str "t2"), ("value", Json.str "1")],
        Json.obj [("dn", Json.str "CC:DD"), ("type", Json.str "t3"), ("value", Json.str "1")],
        Json.obj [("dn", Json.str "CC:DD"), ("type", Json.str "t4"), ("value", Json.str "1")],
        Json.obj [("dn", Json.str "CC:DD"), ("type", Json.str "t5"), ("value", Json.str "1")]]))).map
      ParsedStatus.mac = some (Json.str "CC:DD") ∧
    (process_mqtt_message 0 true "wifielement/AA:BB/status" (some (Json.arr [
        Json.obj [("dn", Json.str "CC:DD"), ("type", Json.str "t1"), ("value", Json.str "1")],
        Json.obj [("dn", Json.str "CC:DD"), ("type", Json.str "t2"), ("value", Json.str "1")],
        Json.obj [("dn", Json.str "CC:DD"), ("type", Json.str "t3"), ("value", Json.str "1")],
        Json.obj [("dn", Json.str "CC:DD"), ("type", Json.str "t4"), ("value", Json.str "1")],
        Json.obj [("dn", Json.str "CC:DD"), ("type", Json.str "t5"), ("value", Json.str "1")]]))
      emptyState).1 = true ∧
    aKeys (process_mqtt_message 0 true "wifielement/AA:BB/status" (some (Json.arr [
        Json.obj [("dn", Json.str "CC:DD"), ("type", Json.str "t1"), ("value", Json.str "1")],
        Json.obj [("dn", Json.str "CC:DD"), ("type", Json.str "t2"), ("value", Json.str "1")],
        Json.obj [("dn", Json.str "CC:DD"), ("type", Json.str "t3"), ("value", Json.str "1")],
        Json.obj [("dn", Json.str "CC:DD"), ("type", Json.str "t4"), ("value", Json.str "1")],
        Json.obj [("dn", Json.str "CC:DD"), ("type", Json.str "t5"), ("value", Json.str "1")]]))
      emptyState).2.mem = ["AA:BB"] := by
  refine ⟨rfl, rfl, rfl⟩

theorem process_passes_to_update (now : Int) (so : Bool) (topic : String)
    (payload : Option Json) (st : State) (p1 : String) (rest : List String)
    (parsed : ParsedStatus)
    (hsplit : pySplit topic '/' = "wifielement" :: p1 :: "status" :: rest)
    (hparse : parse_status_message now payload = some parsed)
    (hlen : 5 ≤ parsed.attributes.length) :
    process_mqtt_message now so topic payload st =
      liftOut (update_device now so p1 (some parsed.attributes) st) := by
  simp only [process_mqtt_message, hsplit, hparse]
  rw [if_neg (by simp : ¬ ("wifielement" : String) ≠ "wifielement"),
    if_neg (by simp : ¬ ("status" : String) ≠ "status"),
    if_neg (by omega : ¬ parsed.attributes.length < 5)]

/-- C3 (amended): for every message passing the topic filter, the parser
and the comprehensiveness threshold, the listener calls the Device Store
update with the identifier taken from the topic's second segment; the
parser's `dn`-derived identifier is not used. -/
theorem C3_topic_identifier : ∀ (now : Int) (so : Bool) (topic : String)
    (payload : Option Json) (st : State) (p1 : String) (rest : List String)
    (parsed : ParsedStatus),
    pySplit topic '/' = "wifielement" :: p1 :: "status" :: rest →
    parse_status_message now payload = some parsed →
    5 ≤ parsed.attributes.length →
    process_mqtt_message now so topic payload st =
      liftOut (update_device now so p1 (some parsed.attributes) st) := by
  intro now so topic payload st p1 rest parsed hsplit hparse hlen
  exact process_passes_to_update now so topic payload st p1 rest parsed hsplit hparse hlen

/-- Witness for C3 (amended) at a concrete accepted message. -/
theorem C3_topic_identifier_witness :
    pySplit "wifielement/AA/status" '/' = "wifielement" :: "AA" :: "status" :: ([] : List String) ∧
    process_mqtt_message 0 true "wifielement/AA/status" (some (Json.arr [
        Json.obj [("dn", Json.str "CC"), ("type", Json.str "t1"), ("value", Json.str "1")],
        Json.obj [("type", Json.str "t2"), ("value", Json.str "1")],
        Json.obj [("type", Json.str "t3"), ("value", Json.str "1")],
        Json.obj [("type", Json.str "t4"), ("value", Json.str "1")],
        Json.obj [("type", Json.str "t5"), ("value", Json.str "1")]]))
      emptyState =
      liftOut (update_device 0 true "AA" (some [
        (Json.str "t1", Json.str "1"), (Json.str "t2", Json.str "1"),
        (Json.str "t3", Json.str "1"), (Json.str "t4", Json.str "1"),
        (Json.str "t5", Json.str "1")]) emptyState) :=
  ⟨rfl,
   C3_topic_identifier 0 true "wifielement/AA/status" _ emptyState "AA" []
     ⟨Json.str "CC", [(Json.str "t1", Json.str "1"), (Json.str "t2", Json.str "1"),
       (Json.str "t3", Json.str "1"), (Json.str "t4", Json.str "1"),
       (Json.str "t5", Json.str "1")], 0⟩ rfl rfl (by decide)⟩

/-- C4: for every status-topic message whose payload parses, a parsed
attribute mapping with fewer than 5 entries makes `process_mqtt_message`
return `false` with the state (memory and snapshot) unchanged, while 5 or
more entries hand the message to `update_device`. -/
theorem C4_comprehensiveness : ∀ (now : Int) (so : Bool) (topic : String)
    (payload : Option Json) (st : State) (p1 : String) (rest : List String)
    (parsed : ParsedStatus),
    pySplit topic '/' = "wifielement" :: p1 :: "status" :: rest →
    parse_status_message now payload = some parsed →
    (parsed.attributes.length < 5 →
      process_mqtt_message now so topic payload st = (false, st)) ∧
    (5 ≤ parsed.attributes.length →
      process_mqtt_message now so topic payload st =
        liftOut (update_device now so p1 (some parsed.attributes) st)) := by
  intro now so topic payload st p1 rest parsed hsplit hparse
  constructor
  · intro hlt
    simp only [process_mqtt_message, hsplit, hparse]
    rw [if_neg (by simp : ¬ ("wifielement" : String) ≠ "wifielement"),
      if_neg (by simp : ¬ ("status" : String) ≠ "status"),
      if_pos hlt]
  · intro hge
    exact process_passes_to_update now so topic payload st p1 rest parsed hsplit hparse hge

/-! ### update_device: evaluation lemmas -/

theorem update_device_empty_mac (now : Int) (so : Bool) (sa : Option Attrs)
    (st : State) : update_device now so "" sa st = UpdOut.ret false st := by
  simp [update_device]

theorem update_device_eq_existing (now : Int) (so : Bool) (mac : String)
    (sa : Option Attrs) (st : State) (d0 : Device) (hmac : mac ≠ "")
    (hget : aGet st.mem (pyUpper mac) = some d0) :
    update_device now so mac sa st =
      uDevGo so (pyUpper mac) sa false { d0 with last_seen := now } st := by
  simp [update_device, hmac, hget]

theorem update_device_eq_new (now : Int) (so : Bool) (mac : String)
    (sa : Option Attrs) (st : State) (hmac : mac ≠ "")
    (hget : aGet st.mem (pyUpper mac) = none)
    (hcap : st.mem.length < MAX_DEVICES) :
    update_device now so mac sa st =
      uDevGo so (pyUpper mac) sa true (freshDevice (pyUpper mac) now) st := by
  simp [update_device, hmac, hget, Nat.not_le.mpr hcap]

theorem update_device_eq_full (now : Int) (so : Bool) (mac : String)
    (sa : Option Attrs) (st : State) (hmac : mac ≠ "")
    (hget : aGet st.mem (pyUpper mac) = none)
    (hcap : MAX_DEVICES ≤ st.mem.length) :
    update_device now so mac sa st = UpdOut.ret false st := by
  simp [update_device, hmac, hget, hcap]

theorem uDevGo_some_large (so : Bool) (MAC : String) (b : Attrs) (isNew : Bool)
    (d1 : Device) (st : State)
    (hsz : MAX_DEVICE_SIZE_BYTES < utf8Len (dumpsAttrs (aMerge d1.attributes b))) :
    uDevGo so MAC (some b) isNew d1 st =
      UpdOut.ret false ⟨aliasMem isNew st.mem MAC d1, st.disk⟩ := by
  simp [uDevGo, hsz]

theorem uDevGo_some_ok (so : Bool) (MAC : String) (b : Attrs) (isNew : Bool)
    (d1 : Device) (st : State)
    (hsz : ¬ MAX_DEVICE_SIZE_BYTES < utf8Len (dumpsAttrs (aMerge d1.attributes b))) :
    uDevGo so MAC (some b) isNew d1 st =
      uDevCaps so MAC { d1 with attributes := aMerge d1.attributes b }
        ⟨aliasMem isNew st.mem MAC { d1 with attributes := aMerge d1.attributes b },
         st.disk⟩ := by
  simp [uDevGo, hsz]

theorem uDevCaps_eq_str (so : Bool) (MAC : String) (d : Device) (st : State)
    (s : String)
    (hc : aGet d.attributes (Json.str "supportAttributes") = some (Json.str s)) :
    uDevCaps so MAC d st =
      UpdOut.ret true
        ⟨aIns st.mem MAC { d with capabilities := (pySplit s ',').map pyStrip },
         if so then aIns st.mem MAC { d with capabilities := (pySplit s ',').map pyStrip }
         else st.disk⟩ := by
  simp [uDevCaps, hc, uDevCommit]

theorem uDevCaps_eq_none (so : Bool) (MAC : String) (d : Device) (st : State)
    (hc : aGet d.attributes (Json.str "supportAttributes") = none) :
    uDevCaps so MAC d st =
      UpdOut.ret true ⟨aIns st.mem MAC d, if so then aIns st.mem MAC d else st.disk⟩ := by
  simp [uDevCaps, hc, uDevCommit]

theorem uDevCaps_eq_exn (so : Bool) (MAC : String) (d : Device) (st : State)
    (v : Json) (hc : aGet d.attributes (Json.str "supportAttributes") = some v)
    (hv : ∀ s, v ≠ Json.str s) : uDevCaps so MAC d st = UpdOut.exn st := by
  unfold uDevCaps
  rw [hc]
  cases v with
  | str s => exact absurd rfl (hv s)
  | null => rfl
  | bool b => rfl
  | num n => rfl
  | arr xs => rfl
  | obj kvs => rfl

theorem aIns_aliasMem (isNew : Bool) (m : Store) (MAC : String) (d2 d : Device) :
    aIns (aliasMem isNew m MAC d2) MAC d = aIns m MAC d := by
  cases isNew with
  | true => rfl
  | false => simp [aliasMem, aIns_aIns_same]

/-! ### The size-rejection path (claim C1) -/

theorem upd_reject_size (now : Int) (so : Bool) (mac : String) (b : Attrs)
    (st : State) (d0 : Device) (hmac : mac ≠ "")
    (hget : aGet st.mem (pyUpper mac) = some d0)
    (hsz : MAX_DEVICE_SIZE_BYTES < utf8Len (dumpsAttrs (aMerge d0.attributes b))) :
    update_device now so mac (some b) st =
      UpdOut.ret false
        ⟨aIns st.mem (pyUpper mac) { d0 with last_seen := now }, st.disk⟩ := by
  rw [update_device_eq_existing now so mac (some b) st d0 hmac hget]
  rw [uDevGo_some_large so (pyUpper mac) b false { d0 with last_seen := now } st
    (by simpa using hsz)]
  rfl

theorem escChar_a : escChar 'a' = ['a'] := by decide

theorem escList_replicate_a (n : Nat) :
    escList (List.replicate n 'a') = List.replicate n 'a' := by
  induction n with
  | zero => rfl
  | succ m ih => simp [List.replicate_succ, escList, escChar_a, ih]

theorem utf8Len_append (a b : String) : utf8Len (a ++ b) = utf8Len a + utf8Len b := by
  have h : (a ++ b).data = a.data ++ b.data := rfl
  simp [utf8Len, h]

theorem utf8Len_escapeS_bigStr : utf8Len (escapeS bigStr) = 1048576 := by
  show ((escList (List.replicate 1048576 'a')).map Char.utf8Size).sum = 1048576
  rw [escList_replicate_a, List.map_replicate]
  rw [show Char.utf8Size 'a' = 1 from rfl]
  rw [List.sum_replicate]
  simp

theorem utf8Len_bigAttrs : utf8Len (dumpsAttrs bigAttrs) = 1048585 := by
  have h1 : dumpsAttrs bigAttrs =
      "\x7b" ++ ("\"" ++ escapeS "x" ++ "\": " ++ ("\"" ++ escapeS bigStr ++ "\"")) ++ "\x7d" :=
    rfl
  rw [h1]
  simp only [utf8Len_append]
  rw [utf8Len_escapeS_bigStr]
  decide

/-! ### Claim theorems: size ceiling (C1) -/

/-- C1 counterexample: an update on the already-stored identifier `M` whose
merged attributes serialize beyond `MAX_DEVICE_SIZE_BYTES` is rejected, but
the stored record is not left completely unchanged: its `last_seen` is
mutated in place (0 before the call, 5 after) because the local `device`
dict aliases the stored record and `device['last_seen'] = current_time`
runs before the size check. -/
theorem C1_counterexample :
    MAX_DEVICE_SIZE_BYTES < utf8Len (dumpsAttrs (aMerge bigDev.attributes [])) ∧
    update_device 5 true "M" (some []) bigState =
      UpdOut.ret false ⟨[("M", ⟨"M", 0, 5, [], bigAttrs⟩)], []⟩ ∧
    (aGet bigState.mem "M").map Device.last_seen = some 0 ∧
    (aGet [("M", (⟨"M", 0, 5, [], bigAttrs⟩ : Device))] "M").map Device.last_seen =
      some 5 := by
  have hsz : MAX_DEVICE_SIZE_BYTES < utf8Len (dumpsAttrs (aMerge bigDev.attributes [])) := by
    show MAX_DEVICE_SIZE_BYTES < utf8Len (dumpsAttrs (aMerge bigAttrs []))
    rw [show aMerge bigAttrs ([] : Attrs) = bigAttrs from rfl, utf8Len_bigAttrs]
    decide
  refine ⟨hsz, ?_, rfl, rfl⟩
  rw [upd_reject_size 5 true "M" [] bigState bigDev (by decide) rfl hsz]
  rfl

/-- C1 (amended): an update on an already-stored identifier (with a
non-empty identifier argument) whose merged attribute mapping serializes to
more than `MAX_DEVICE_SIZE_BYTES` is rejected, the record's `attributes`,
`capabilities` and `first_seen` are unchanged and the snapshot is not
rewritten — but the stored record's `last_seen` is set to the call time,
because the in-place timestamp write precedes the size check and aliases
the stored record. -/
theorem C1_size_rejection : ∀ (now : Int) (so : Bool) (mac : String) (b : Attrs)
    (st : State) (d0 : Device), mac ≠ "" →
    aGet st.mem (pyUpper mac) = some d0 →
    MAX_DEVICE_SIZE_BYTES < utf8Len (dumpsAttrs (aMerge d0.attributes b)) →
    update_device now so mac (some b) st =
      UpdOut.ret false
        ⟨aIns st.mem (pyUpper mac)
          ⟨d0.mac, d0.first_seen, now, d0.capabilities, d0.attributes⟩,
         st.disk⟩ := by
  intro now so mac b st d0 hmac hget hsz
  exact upd_reject_size now so mac b st d0 hmac hget hsz

/-- Witness for C1 (amended): the hypotheses hold at the concrete oversized
store and the rejection leaves everything but `last_seen` unchanged. -/
theorem C1_size_rejection_witness :
    (("M" : String) ≠ "") ∧
    aGet bigState.mem (pyUpper "M") = some bigDev ∧
    (MAX_DEVICE_SIZE_BYTES < utf8Len (dumpsAttrs (aMerge bigDev.attributes []))) ∧
    update_device 7 false "M" (some []) bigState =
      UpdOut.ret false
        ⟨aIns bigState.mem (pyUpper "M")
          ⟨bigDev.mac, bigDev.first_seen, 7, bigDev.capabilities, bigDev.attributes⟩,
         bigState.disk⟩ := by
  have h1 : ("M" : String) ≠ "" := by decide
  have h2 : aGet bigState.mem (pyUpper "M") = some bigDev := rfl
  have h3 : MAX_DEVICE_SIZE_BYTES < utf8Len (dumpsAttrs (aMerge bigDev.attributes [])) := by
    show MAX_DEVICE_SIZE_BYTES < utf8Len (dumpsAttrs (aMerge bigAttrs []))
    rw [show aMerge bigAttrs ([] : Attrs) = bigAttrs from rfl, utf8Len_bigAttrs]
    decide
  exact ⟨h1, h2, h3, C1_size_rejection 7 false "M" [] bigState bigDev h1 h2 h3⟩

/-! ### Accepted updates: normal form -/

theorem accepted_cases (now : Int) (so : Bool) (mac : String) (b : Attrs)
    (st st1 : State)
    (h : update_device now so mac (some b) st = UpdOut.ret true st1) :
    mac ≠ "" ∧
    ∃ d1 : Device,
      ((∃ d0, aGet st.mem (pyUpper mac) = some d0 ∧ d1 = { d0 with last_seen := now }) ∨
       (aGet st.mem (pyUpper mac) = none ∧ st.mem.length < MAX_DEVICES ∧
         d1 = freshDevice (pyUpper mac) now)) ∧
      ¬ MAX_DEVICE_SIZE_BYTES < utf8Len (dumpsAttrs (aMerge d1.attributes b)) ∧
      ∃ dfin : Device,
        ((∃ s, aGet (aMerge d1.attributes b) (Json.str "supportAttributes") =
             some (Json.str s) ∧
           dfin = ⟨d1.mac, d1.first_seen, d1.last_seen, (pySplit s ',').map pyStrip,
                   aMerge d1.attributes b⟩) ∨
         (aGet (aMerge d1.attributes b) (Json.str "supportAttributes") = none ∧
           dfin = ⟨d1.mac, d1.first_seen, d1.last_seen, d1.capabilities,
                   aMerge d1.attributes b⟩)) ∧
        st1 = ⟨aIns st.mem (pyUpper mac) dfin,
               if so then aIns st.mem (pyUpper mac) dfin else st.disk⟩ := by
  by_cases hmac : mac = ""
  · rw [hmac, update_device_empty_mac] at h
    exact absurd h (by simp)
  · refine ⟨hmac, ?_⟩
    have main : ∀ (isNew : Bool) (d1 : Device),
        uDevGo so (pyUpper mac) (some b) isNew d1 st = UpdOut.ret true st1 →
        ¬ MAX_DEVICE_SIZE_BYTES < utf8Len (dumpsAttrs (aMerge d1.attributes b)) ∧
        ∃ dfin : Device,
          ((∃ s, aGet (aMerge d1.attributes b) (Json.str "supportAttributes") =
               some (Json.str s) ∧
             dfin = ⟨d1.mac, d1.first_seen, d1.last_seen, (pySplit s ',').map pyStrip,
                     aMerge d1.attributes b⟩) ∨
           (aGet (aMerge d1.attributes b) (Json.str "supportAttributes") = none ∧
             dfin = ⟨d1.mac, d1.first_seen, d1.last_seen, d1.capabilities,
                     aMerge d1.attributes b⟩)) ∧
          st1 = ⟨aIns st.mem (pyUpper mac) dfin,
                 if so then aIns st.mem (pyUpper mac) dfin else st.disk⟩ := by
      intro isNew d1 hgo
      by_cases hsz : MAX_DEVICE_SIZE_BYTES < utf8Len (dumpsAttrs (aMerge d1.attributes b))
      · rw [uDevGo_some_large so (pyUpper mac) b isNew d1 st hsz] at hgo
        exact absurd hgo (by simp)
      · refine ⟨hsz, ?_⟩
        rw [uDevGo_some_ok so (pyUpper mac) b isNew d1 st hsz] at hgo
        cases hc : aGet (aMerge d1.attributes b) (Json.str "supportAttributes") with
        | none =>
          rw [uDevCaps_eq_none so (pyUpper mac) _ _ (by simpa using hc)] at hgo
          refine ⟨⟨d1.mac, d1.first_seen, d1.last_seen, d1.capabilities,
                   aMerge d1.attributes b⟩, Or.inr ⟨rfl, rfl⟩, ?_⟩
          simp only [UpdOut.ret.injEq, true_and] at hgo
          rw [← hgo]
          rw [aIns_aliasMem]
        | some v =>
          cases v with
          | str s =>
            rw [uDevCaps_eq_str so (pyUpper mac) _ _ s (by simpa using hc)] at hgo
            refine ⟨⟨d1.mac, d1.first_seen, d1.last_seen, (pySplit s ',').map pyStrip,
                     aMerge d1.attributes b⟩, Or.inl ⟨s, rfl, rfl⟩, ?_⟩
            simp only [UpdOut.ret.injEq, true_and] at hgo
            rw [← hgo]
            rw [aIns_aliasMem]
          | null =>
            rw [uDevCaps_eq_exn so (pyUpper mac) _ _ Json.null (by simpa using hc)
              (fun s hs => Json.noConfusion hs)] at hgo
            exact absurd hgo (by simp)
          | bool bb =>
            rw [uDevCaps_eq_exn so (pyUpper mac) _ _ (Json.bool bb) (by simpa using hc)
              (fun s hs => Json.noConfusion hs)] at hgo
            exact absurd hgo (by simp)
          | num n =>
            rw [uDevCaps_eq_exn so (pyUpper mac) _ _ (Json.num n) (by simpa using hc)
              (fun s hs => Json.noConfusion hs)] at hgo
            exact absurd hgo (by simp)
          | arr xs =>
            rw [uDevCaps_eq_exn so (pyUpper mac) _ _ (Json.arr xs) (by simpa using hc)
              (fun s hs => Json.noConfusion hs)] at hgo
            exact absurd hgo (by simp)
          | obj kvs =>
            rw [uDevCaps_eq_exn so (pyUpper mac) _ _ (Json.obj kvs) (by simpa using hc)
              (fun s hs => Json.noConfusion hs)] at hgo
            exact absurd hgo (by simp)
    cases hget : aGet st.mem (pyUpper mac) with
    | some d0 =>
      rw [update_device_eq_existing now so mac (some b) st d0 hmac hget] at h
      obtain ⟨hsz, dfin, hcaps, hst⟩ := main false { d0 with last_seen := now } h
      exact ⟨{ d0 with last_seen := now }, Or.inl ⟨d0, rfl, rfl⟩, hsz, dfin, hcaps, hst⟩
    | none =>
      by_cases hcap : MAX_DEVICES ≤ st.mem.length
      · rw [update_device_eq_full now so mac (some b) st hmac hget hcap] at h
        exact absurd h (by simp)
      · have hlt : st.mem.length < MAX_DEVICES := Nat.not_le.mp hcap
        rw [update_device_eq_new now so mac (some b) st hmac hget hlt] at h
        obtain ⟨hsz, dfin, hcaps, hst⟩ := main true (freshDevice (pyUpper mac) now) h
        exact ⟨freshDevice (pyUpper mac) now, Or.inr ⟨rfl, hlt, rfl⟩, hsz, dfin, hcaps, hst⟩

/-! ### Accepted updates: forward evaluation -/

theorem upd_accept_str (now : Int) (so : Bool) (mac : String) (b : Attrs)
    (st : State) (d0 : Device) (s : String) (hmac : mac ≠ "")
    (hget : aGet st.mem (pyUpper mac) = some d0)
    (hsz : ¬ MAX_DEVICE_SIZE_BYTES < utf8Len (dumpsAttrs (aMerge d0.attributes b)))
    (hc : aGet (aMerge d0.attributes b) (Json.str "supportAttributes") =
      some (Json.str s)) :
    update_device now so mac (some b) st =
      UpdOut.ret true
        ⟨aIns st.mem (pyUpper mac)
          ⟨d0.mac, d0.first_seen, now, (pySplit s ',').map pyStrip, aMerge d0.attributes b⟩,
         if so then
           aIns st.mem (pyUpper mac)
             ⟨d0.mac, d0.first_seen, now, (pySplit s ',').map pyStrip, aMerge d0.attributes b⟩
         else st.disk⟩ := by
  rw [update_device_eq_existing now so mac (some b) st d0 hmac hget]
  rw [uDevGo_some_ok so (pyUpper mac) b false _ st (by simpa using hsz)]
  rw [uDevCaps_eq_str so (pyUpper mac) _ _ s (by simpa using hc)]
  simp [aliasMem, aIns_aIns_same]

theorem upd_accept_none (now : Int) (so : Bool) (mac : String) (b : Attrs)
    (st : State) (d0 : Device) (hmac : mac ≠ "")
    (hget : aGet st.mem (pyUpper mac) = some d0)
    (hsz : ¬ MAX_DEVICE_SIZE_BYTES < utf8Len (dumpsAttrs (aMerge d0.attributes b)))
    (hc : aGet (aMerge d0.attributes b) (Json.str "supportAttributes") = none) :
    update_device now so mac (some b) st =
      UpdOut.ret true
        ⟨aIns st.mem (pyUpper mac)
          ⟨d0.mac, d0.first_seen, now, d0.capabilities, aMerge d0.attributes b⟩,
         if so then
           aIns st.mem (pyUpper mac)
             ⟨d0.mac, d0.first_seen, now, d0.capabilities, aMerge d0.attributes b⟩
         else st.disk⟩ := by
  rw [update_device_eq_existing now so mac (some b) st d0 hmac hget]
  rw [uDevGo_some_ok so (pyUpper mac) b false _ st (by simpa using hsz)]
  rw [uDevCaps_eq_none so (pyUpper mac) _ _ (by simpa using hc)]
  simp [aliasMem, aIns_aIns_same]

theorem upd_accept_new_str (now : Int) (so : Bool) (mac : String) (b : Attrs)
    (st : State) (s : String) (hmac : mac ≠ "")
    (hget : aGet st.mem (pyUpper mac) = none)
    (hcap : st.mem.length < MAX_DEVICES)
    (hsz : ¬ MAX_DEVICE_SIZE_BYTES < utf8Len (dumpsAttrs (aMerge [] b)))
    (hc : aGet (aMerge ([] : Attrs) b) (Json.str "supportAttributes") =
      some (Json.str s)) :
    update_device now so mac (some b) st =
      UpdOut.ret true
        ⟨aIns st.mem (pyUpper mac)
          ⟨pyUpper mac, now, now, (pySplit s ',').map pyStrip, aMerge [] b⟩,
         if so then
           aIns st.mem (pyUpper mac)
             ⟨pyUpper mac, now, now, (pySplit s ',').map pyStrip, aMerge [] b⟩
         else st.disk⟩ := by
  rw [update_device_eq_new now so mac (some b) st hmac hget hcap]
  rw [uDevGo_some_ok so (pyUpper mac) b true _ st (by simpa [freshDevice] using hsz)]
  rw [uDevCaps_eq_str so (pyUpper mac) _ _ s (by simpa [freshDevice] using hc)]
  simp [aliasMem, freshDevice]

theorem upd_accept_new_none (now : Int) (so : Bool) (mac : String) (b : Attrs)
    (st : State) (hmac : mac ≠ "")
    (hget : aGet st.mem (pyUpper mac) = none)
    (hcap : st.mem.length < MAX_DEVICES)
    (hsz : ¬ MAX_DEVICE_SIZE_BYTES < utf8Len (dumpsAttrs (aMerge [] b)))
    (hc : aGet (aMerge ([] : Attrs) b) (Json.str "supportAttributes") = none) :
    update_device now so mac (some b) st =
      UpdOut.ret true
        ⟨aIns st.mem (pyUpper mac) ⟨pyUpper mac, now, now, [], aMerge [] b⟩,
         if so then aIns st.mem (pyUpper mac) ⟨pyUpper mac, now, now, [], aMerge [] b⟩
         else st.disk⟩ := by
  rw [update_device_eq_new now so mac (some b) st hmac hget hcap]
  rw [uDevGo_some_ok so (pyUpper mac) b true _ st (by simpa [freshDevice] using hsz)]
  rw [uDevCaps_eq_none so (pyUpper mac) _ _ (by simpa [freshDevice] using hc)]
  simp [aliasMem, freshDevice]

/-! ### Claim theorems: idempotence (C7) -/

/-- C7: for every store state and parsed status whose update is accepted,
applying the same update again immediately afterwards is also accepted and
yields a store state identical to the state after the first application
except possibly the `last_seen` timestamp of that one record (and the
snapshot tracking it). -/
theorem C7_idempotent : ∀ (now1 now2 : Int) (so1 so2 : Bool) (mac : String)
    (b : Attrs) (st st1 : State),
    update_device now1 so1 mac (some b) st = UpdOut.ret true st1 →
    ∃ d : Device, aGet st1.mem (pyUpper mac) = some d ∧
      update_device now2 so2 mac (some b) st1 =
        UpdOut.ret true
          ⟨aIns st1.mem (pyUpper mac) { d with last_seen := now2 },
           if so2 then aIns st1.mem (pyUpper mac) { d with last_seen := now2 }
           else st1.disk⟩ := by
  intro now1 now2 so1 so2 mac b st st1 h
  obtain ⟨hmac, d1, hbase, hsz, dfin, hcaps, hst⟩ := accepted_cases now1 so1 mac b st st1 h
  rcases hcaps with ⟨s, hcs, hdfin⟩ | ⟨hcn, hdfin⟩
  · subst hdfin
    subst hst
    have hget1 : aGet
        (aIns st.mem (pyUpper mac)
          ⟨d1.mac, d1.first_seen, d1.last_seen, (pySplit s ',').map pyStrip,
           aMerge d1.attributes b⟩) (pyUpper mac) =
        some ⟨d1.mac, d1.first_seen, d1.last_seen, (pySplit s ',').map pyStrip,
              aMerge d1.attributes b⟩ := aGet_aIns_self _ _ _
    refine ⟨_, hget1, ?_⟩
    rw [upd_accept_str now2 so2 mac b _ _ s hmac hget1
      (by simpa [aMerge_idem] using hsz) (by simpa [aMerge_idem] using hcs)]
    simp [aMerge_idem]
  · subst hdfin
    subst hst
    have hget1 : aGet
        (aIns st.mem (pyUpper mac)
          ⟨d1.mac, d1.first_seen, d1.last_seen, d1.capabilities,
           aMerge d1.attributes b⟩) (pyUpper mac) =
        some ⟨d1.mac, d1.first_seen, d1.last_seen, d1.capabilities,
              aMerge d1.attributes b⟩ := aGet_aIns_self _ _ _
    refine ⟨_, hget1, ?_⟩
    rw [upd_accept_none now2 so2 mac b _ _ hmac hget1
      (by simpa [aMerge_idem] using hsz) (by simpa [aMerge_idem] using hcn)]
    simp [aMerge_idem]

/-- Witness for C7: a concrete accepted update on the empty store, followed
by the guaranteed accepted repetition. -/
theorem C7_idempotent_witness :
    update_device 1 true "aa" (some [(Json.str "t", Json.str "1")]) emptyState =
      UpdOut.ret true
        ⟨[("AA", ⟨"AA", 1, 1, [], [(Json.str "t", Json.str "1")]⟩)],
         [("AA", ⟨"AA", 1, 1, [], [(Json.str "t", Json.str "1")]⟩)]⟩ ∧
    (∃ d : Device,
      aGet (State.mk [("AA", ⟨"AA", 1, 1, [], [(Json.str "t", Json.str "1")]⟩)]
          [("AA", ⟨"AA", 1, 1, [], [(Json.str "t", Json.str "1")]⟩)]).mem
        (pyUpper "aa") = some d ∧
      update_device 2 false "aa" (some [(Json.str "t", Json.str "1")])
          (State.mk [("AA", ⟨"AA", 1, 1, [], [(Json.str "t", Json.str "1")]⟩)]
            [("AA", ⟨"AA", 1, 1, [], [(Json.str "t", Json.str "1")]⟩)]) =
        UpdOut.ret true
          ⟨aIns (State.mk [("AA", ⟨"AA", 1, 1, [], [(Json.str "t", Json.str "1")]⟩)]
              [("AA", ⟨"AA", 1, 1, [], [(Json.str "t", Json.str "1")]⟩)]).mem
            (pyUpper "aa") { d with last_seen := 2 },
           if false then
             aIns (State.mk [("AA", ⟨"AA", 1, 1, [], [(Json.str "t", Json.str "1")]⟩)]
                [("AA", ⟨"AA", 1, 1, [], [(Json.str "t", Json.str "1")]⟩)]).mem
               (pyUpper "aa") { d with last_seen := 2 }
           else (State.mk [("AA", ⟨"AA", 1, 1, [], [(Json.str "t", Json.str "1")]⟩)]
              [("AA", ⟨"AA", 1, 1, [], [(Json.str "t", Json.str "1")]⟩)]).disk⟩) :=
  ⟨rfl,
   C7_idempotent 1 2 true false "aa" [(Json.str "t", Json.str "1")] emptyState
     (State.mk [("AA", ⟨"AA", 1, 1, [], [(Json.str "t", Json.str "1")]⟩)]
       [("AA", ⟨"AA", 1, 1, [], [(Json.str "t", Json.str "1")]⟩)]) rfl⟩

/-! ### Claim theorems: capability derivation (C8) -/

/-- C8: for every accepted update, if the merged attribute mapping contains
`supportAttributes` then (its value is a string and) the record's
capabilities are recomputed as the comma-split, whitespace-trimmed token
sequence of that value in order; if it is absent, the previously computed
capabilities are left unchanged (empty for a fresh record). -/
theorem C8_capabilities : ∀ (now : Int) (so : Bool) (mac : String) (b : Attrs)
    (st st1 : State),
    update_device now so mac (some b) st = UpdOut.ret true st1 →
    ∃ d : Device, aGet st1.mem (pyUpper mac) = some d ∧
      (∀ v, aGet d.attributes (Json.str "supportAttributes") = some v →
        ∃ s, v = Json.str s ∧ d.capabilities = (pySplit s ',').map pyStrip) ∧
      (aGet d.attributes (Json.str "supportAttributes") = none →
        d.capabilities = ((aGet st.mem (pyUpper mac)).map Device.capabilities).getD []) := by
  intro now so mac b st st1 h
  obtain ⟨hmac, d1, hbase, hsz, dfin, hcaps, hst⟩ := accepted_cases now so mac b st st1 h
  rcases hcaps with ⟨s, hcs, hdfin⟩ | ⟨hcn, hdfin⟩
  · subst hdfin
    subst hst
    refine ⟨_, aGet_aIns_self _ _ _, ?_, ?_⟩
    · intro v hv
      simp only at hv
      rw [hv] at hcs
      exact ⟨s, Option.some.inj hcs, rfl⟩
    · intro h0
      simp only at h0
      rw [h0] at hcs
      exact absurd hcs (by simp)
  · subst hdfin
    subst hst
    refine ⟨_, aGet_aIns_self _ _ _, ?_, ?_⟩
    · intro v hv
      simp only at hv
      rw [hv] at hcn
      exact absurd hcn (by simp)
    · intro _
      rcases hbase with ⟨d0, hget0, hd1⟩ | ⟨hget0, _, hd1⟩
      · subst hd1
        rw [hget0]
        rfl
      · subst hd1
        rw [hget0]
        rfl

/-- Witness for C8 at the spec's example: `supportAttributes =
"brightness, switch,color"` yields capabilities
`["brightness","switch","color"]`; the sibling update without
`supportAttributes` keeps capabilities empty. -/
theorem C8_capabilities_witness :
    update_device 1 true "aa"
        (some [(Json.str "supportAttributes", Json.str "brightness, switch,color")])
        emptyState =
      UpdOut.ret true
        ⟨[("AA", ⟨"AA", 1, 1, ["brightness", "switch", "color"],
           [(Json.str "supportAttributes", Json.str "brightness, switch,color")]⟩)],
         [("AA", ⟨"AA", 1, 1, ["brightness", "switch", "color"],
           [(Json.str "supportAttributes", Json.str "brightness, switch,color")]⟩)]⟩ ∧
    (∃ d : Device,
      aGet (State.mk
          [("AA", ⟨"AA", 1, 1, ["brightness", "switch", "color"],
            [(Json.str "supportAttributes", Json.str "brightness, switch,color")]⟩)]
          [("AA", ⟨"AA", 1, 1, ["brightness", "switch", "color"],
            [(Json.str "supportAttributes", Json.str "brightness, switch,color")]⟩)]).mem
        (pyUpper "aa") = some d ∧
      (∀ v, aGet d.attributes (Json.str "supportAttributes") = some v →
        ∃ s, v = Json.str s ∧ d.capabilities = (pySplit s ',').map pyStrip) ∧
      (aGet d.attributes (Json.str "supportAttributes") = none →
        d.capabilities = ((aGet emptyState.mem (pyUpper "aa")).map Device.capabilities).getD [])) :=
  ⟨rfl,
   C8_capabilities 1 true "aa"
     [(Json.str "supportAttributes", Json.str "brightness, switch,color")]
     emptyState
     (State.mk
       [("AA", ⟨"AA", 1, 1, ["brightness", "switch", "color"],
         [(Json.str "supportAttributes", Json.str "brightness, switch,color")]⟩)]
       [("AA", ⟨"AA", 1, 1, ["brightness", "switch", "color"],
         [(Json.str "supportAttributes", Json.str "brightness, switch,color")]⟩)]) rfl⟩

/-- Witness for C4 at a concrete one-attribute (sub-threshold) message. -/
theorem C4_comprehensiveness_witness :
    pySplit "wifielement/AA/status" '/' =
      "wifielement" :: "AA" :: "status" :: ([] : List String) ∧
    parse_status_message 0 (some (Json.arr [Json.obj
        [("dn", Json.str "AA"), ("type", Json.str "t1"), ("value", Json.str "1")]])) =
      some ⟨Json.str "AA", [(Json.str "t1", Json.str "1")], 0⟩ ∧
    process_mqtt_message 0 true "wifielement/AA/status"
        (some (Json.arr [Json.obj
          [("dn", Json.str "AA"), ("type", Json.str "t1"), ("value", Json.str "1")]]))
        emptyState = (false, emptyState) :=
  ⟨rfl, rfl,
   (C4_comprehensiveness 0 true "wifielement/AA/status"
     (some (Json.arr [Json.obj
       [("dn", Json.str "AA"), ("type", Json.str "t1"), ("value", Json.str "1")]]))
     emptyState "AA" [] ⟨Json.str "AA", [(Json.str "t1", Json.str "1")], 0⟩
     rfl rfl).1 (by decide)⟩

/-! ### Persistence failure (C9) -/

theorem uDevCaps_so (so : Bool) (MAC : String) (d : Device) (m : Store) (dsk : Store) :
    uDevCaps so MAC d ⟨m, dsk⟩ =
      match uDevCaps true MAC d ⟨m, dsk⟩ with
      | UpdOut.ret true s => UpdOut.ret true ⟨s.mem, if so then s.mem else dsk⟩
      | r => r := by
  cases hc : aGet d.attributes (Json.str "supportAttributes") with
  | none => simp [uDevCaps, hc, uDevCommit]
  | some v =>
    cases v with
    | str s => simp [uDevCaps, hc, uDevCommit]
    | null => simp [uDevCaps, hc]
    | bool bb => simp [uDevCaps, hc]
    | num n => simp [uDevCaps, hc]
    | arr xs => simp [uDevCaps, hc]
    | obj kvs => simp [uDevCaps, hc]

theorem uDevGo_so (so : Bool) (MAC : String) (sa : Option Attrs) (isNew : Bool)
    (d1 : Device) (st : State) :
    uDevGo so MAC sa isNew d1 st =
      match uDevGo true MAC sa isNew d1 st with
      | UpdOut.ret true s => UpdOut.ret true ⟨s.mem, if so then s.mem else st.disk⟩
      | r => r := by
  cases sa with
  | none => exact uDevCaps_so so MAC d1 _ st.disk
  | some b =>
    by_cases hsz : MAX_DEVICE_SIZE_BYTES < utf8Len (dumpsAttrs (aMerge d1.attributes b))
    · rw [uDevGo_some_large so MAC b isNew d1 st hsz,
        uDevGo_some_large true MAC b isNew d1 st hsz]
    · rw [uDevGo_some_ok so MAC b isNew d1 st hsz,
        uDevGo_some_ok true MAC b isNew d1 st hsz]
      exact uDevCaps_so so MAC _ _ st.disk

theorem update_device_so (now : Int) (so : Bool) (mac : String) (sa : Option Attrs)
    (st : State) :
    update_device now so mac sa st =
      match update_device now true mac sa st with
      | UpdOut.ret true s => UpdOut.ret true ⟨s.mem, if so then s.mem else st.disk⟩
      | r => r := by
  by_cases hmac : mac = ""
  · subst hmac
    rw [update_device_empty_mac, update_device_empty_mac]
  · cases hget : aGet st.mem (pyUpper mac) with
    | some d0 =>
      rw [update_device_eq_existing now so mac sa st d0 hmac hget,
        update_device_eq_existing now true mac sa st d0 hmac hget]
      exact uDevGo_so so (pyUpper mac) sa false _ st
    | none =>
      by_cases hcap : MAX_DEVICES ≤ st.mem.length
      · rw [update_device_eq_full now so mac sa st hmac hget hcap,
          update_device_eq_full now true mac sa st hmac hget hcap]
      · have hlt := Nat.not_le.mp hcap
        rw [update_device_eq_new now so mac sa st hmac hget hlt,
          update_device_eq_new now true mac sa st hmac hget hlt]
        exact uDevGo_so so (pyUpper mac) sa true _ st

/-- C9: for every update that passes all checks (so that it is accepted
when the snapshot write succeeds), a failing persistence step changes
nothing about the outcome except the snapshot: `update_device` still
returns an accepted result, no exception propagates, the in-memory mapping
holds exactly the same attempted update, and the snapshot keeps its prior
content. -/
theorem C9_persistence_failure : ∀ (now : Int) (mac : String) (sa : Option Attrs)
    (st st1 : State),
    update_device now true mac sa st = UpdOut.ret true st1 →
    update_device now false mac sa st = UpdOut.ret true ⟨st1.mem, st.disk⟩ := by
  intro now mac sa st st1 h
  rw [update_device_so now false mac sa st, h]
  rfl

/-- Witness for C9 at a concrete accepted update: with a failing snapshot
write the memory matches the successful-write run and the snapshot stays
empty. -/
theorem C9_persistence_failure_witness :
    update_device 1 true "aa" (some [(Json.str "t", Json.str "1")]) emptyState =
      UpdOut.ret true
        ⟨[("AA", ⟨"AA", 1, 1, [], [(Json.str "t", Json.str "1")]⟩)],
         [("AA", ⟨"AA", 1, 1, [], [(Json.str "t", Json.str "1")]⟩)]⟩ ∧
    update_device 1 false "aa" (some [(Json.str "t", Json.str "1")]) emptyState =
      UpdOut.ret true
        ⟨(State.mk [("AA", ⟨"AA", 1, 1, [], [(Json.str "t", Json.str "1")]⟩)]
            [("AA", ⟨"AA", 1, 1, [], [(Json.str "t", Json.str "1")]⟩)]).mem,
         emptyState.disk⟩ :=
  ⟨rfl,
   C9_persistence_failure 1 "aa" (some [(Json.str "t", Json.str "1")]) emptyState
     (State.mk [("AA", ⟨"AA", 1, 1, [], [(Json.str "t", Json.str "1")]⟩)]
       [("AA", ⟨"AA", 1, 1, [], [(Json.str "t", Json.str "1")]⟩)]) rfl⟩

/-! ### Store shape of an arbitrary update (C2, C10) -/

theorem aGet_some_mem_keys {α β : Type} [DecidableEq α] (l : List (α × β)) (k : α)
    (v : β) (h : aGet l k = some v) : k ∈ aKeys l :=
  List.mem_map_of_mem Prod.fst (aGet_mem l k v h)

theorem uDevCaps_mem_cases (so : Bool) (MAC : String) (d : Device) (m : Store)
    (dsk : Store) :
    (stateAfter (uDevCaps so MAC d ⟨m, dsk⟩)).mem = m ∨
    ∃ d2 : Device, d2.mac = d.mac ∧
      (stateAfter (uDevCaps so MAC d ⟨m, dsk⟩)).mem = aIns m MAC d2 := by
  cases hc : aGet d.attributes (Json.str "supportAttributes") with
  | none =>
    rw [uDevCaps_eq_none so MAC d _ hc]
    exact Or.inr ⟨d, rfl, by cases so <;> rfl⟩
  | some v =>
    cases v with
    | str s =>
      rw [uDevCaps_eq_str so MAC d _ s hc]
      exact Or.inr ⟨{ d with capabilities := (pySplit s ',').map pyStrip }, rfl,
        by cases so <;> rfl⟩
    | null =>
      rw [uDevCaps_eq_exn so MAC d _ Json.null hc (fun s hs => Json.noConfusion hs)]
      exact Or.inl rfl
    | bool bb =>
      rw [uDevCaps_eq_exn so MAC d _ (Json.bool bb) hc (fun s hs => Json.noConfusion hs)]
      exact Or.inl rfl
    | num n =>
      rw [uDevCaps_eq_exn so MAC d _ (Json.num n) hc (fun s hs => Json.noConfusion hs)]
      exact Or.inl rfl
    | arr xs =>
      rw [uDevCaps_eq_exn so MAC d _ (Json.arr xs) hc (fun s hs => Json.noConfusion hs)]
      exact Or.inl rfl
    | obj kvs =>
      rw [uDevCaps_eq_exn so MAC d _ (Json.obj kvs) hc (fun s hs => Json.noConfusion hs)]
      exact Or.inl rfl

theorem uDevGo_mem_cases (so : Bool) (MAC : String) (sa : Option Attrs)
    (isNew : Bool) (d1 : Device) (st : State) :
    (∃ d : Device, d.mac = d1.mac ∧
      (stateAfter (uDevGo so MAC sa isNew d1 st)).mem = aliasMem isNew st.mem MAC d) ∨
    (∃ d : Device, d.mac = d1.mac ∧
      (stateAfter (uDevGo so MAC sa isNew d1 st)).mem = aIns st.mem MAC d) := by
  cases sa with
  | none =>
    rcases uDevCaps_mem_cases so MAC d1 (aliasMem isNew st.mem MAC d1) st.disk with hm | ⟨d2, hd2, hm⟩
    · exact Or.inl ⟨d1, rfl, by simpa [uDevGo] using hm⟩
    · refine Or.inr ⟨d2, hd2, ?_⟩
      rw [show (stateAfter (uDevGo so MAC none isNew d1 st)).mem =
        (stateAfter (uDevCaps so MAC d1 ⟨aliasMem isNew st.mem MAC d1, st.disk⟩)).mem from rfl]
      rw [hm, aIns_aliasMem]
  | some b =>
    by_cases hsz : MAX_DEVICE_SIZE_BYTES < utf8Len (dumpsAttrs (aMerge d1.attributes b))
    · rw [uDevGo_some_large so MAC b isNew d1 st hsz]
      exact Or.inl ⟨d1, rfl, rfl⟩
    · rw [uDevGo_some_ok so MAC b isNew d1 st hsz]
      rcases uDevCaps_mem_cases so MAC { d1 with attributes := aMerge d1.attributes b }
          (aliasMem isNew st.mem MAC { d1 with attributes := aMerge d1.attributes b })
          st.disk with hm | ⟨d2, hd2, hm⟩
      · exact Or.inl ⟨{ d1 with attributes := aMerge d1.attributes b }, rfl, hm⟩
      · refine Or.inr ⟨d2, hd2, ?_⟩
        rw [hm, aIns_aliasMem]

theorem update_device_mem_cases (now : Int) (so : Bool) (mac : String)
    (sa : Option Attrs) (st : State) :
    (stateAfter (update_device now so mac sa st)).mem = st.mem ∨
    ∃ d : Device,
      (stateAfter (update_device now so mac sa st)).mem = aIns st.mem (pyUpper mac) d ∧
      (d.mac = pyUpper mac ∨
        ∃ d0, aGet st.mem (pyUpper mac) = some d0 ∧ d.mac = d0.mac) ∧
      (¬ pyUpper mac ∈ aKeys st.mem → st.mem.length < MAX_DEVICES) := by
  by_cases hmac : mac = ""
  · subst hmac
    rw [update_device_empty_mac]
    exact Or.inl rfl
  · cases hget : aGet st.mem (pyUpper mac) with
    | some d0 =>
      have hkm : pyUpper mac ∈ aKeys st.mem := aGet_some_mem_keys _ _ _ hget
      rw [update_device_eq_existing now so mac sa st d0 hmac hget]
      rcases uDevGo_mem_cases so (pyUpper mac) sa false { d0 with last_seen := now } st
          with ⟨d, hd, hm⟩ | ⟨d, hd, hm⟩
      · refine Or.inr ⟨d, ?_, Or.inr ⟨d0, rfl, hd⟩, fun hn => absurd hkm hn⟩
        rw [hm]
        rfl
      · exact Or.inr ⟨d, hm, Or.inr ⟨d0, rfl, hd⟩, fun hn => absurd hkm hn⟩
    | none =>
      by_cases hcap : MAX_DEVICES ≤ st.mem.length
      · rw [update_device_eq_full now so mac sa st hmac hget hcap]
        exact Or.inl rfl
      · have hlt := Nat.not_le.mp hcap
        rw [update_device_eq_new now so mac sa st hmac hget hlt]
        rcases uDevGo_mem_cases so (pyUpper mac) sa true (freshDevice (pyUpper mac) now) st
            with ⟨d, hd, hm⟩ | ⟨d, hd, hm⟩
        · rw [show aliasMem true st.mem (pyUpper mac) d = st.mem from rfl] at hm
          exact Or.inl hm
        · exact Or.inr ⟨d, hm, Or.inl hd, fun _ => hlt⟩

/-! ### Invariant preservation (C2, C10) -/

theorem charToUpper_idem (c : Char) : c.toUpper.toUpper = c.toUpper := by
  unfold Char.toUpper
  by_cases h : c.toNat ≥ 97 ∧ c.toNat ≤ 122
  · rw [if_pos h]
    have hv : (c.toNat - 32).isValidChar := by
      unfold Nat.isValidChar
      left
      omega
    have ht : (Char.ofNat (c.toNat - 32)).toNat = c.toNat - 32 := by
      rw [Char.ofNat, dif_pos hv]
      rfl
    rw [if_neg]
    omega
  · rw [if_neg h, if_neg h]

theorem pyUpper_idem (s : String) : pyUpper (pyUpper s) = pyUpper s := by
  unfold pyUpper
  rw [show (String.mk (s.data.map Char.toUpper)).data = s.data.map Char.toUpper from rfl]
  rw [List.map_map]
  refine congrArg String.mk ?_
  induction s.data with
  | nil => rfl
  | cons c t ih => simp [Function.comp, charToUpper_idem, ih]

theorem sizeInv_update (now : Int) (so : Bool) (mac : String) (sa : Option Attrs)
    (st : State) (h : sizeInv st) :
    sizeInv (stateAfter (update_device now so mac sa st)) := by
  rcases update_device_mem_cases now so mac sa st with hm | ⟨d, hm, _, hcap⟩
  · exact ⟨by rw [hm]; exact h.1, by rw [hm]; exact h.2⟩
  · by_cases hk : pyUpper mac ∈ aKeys st.mem
    · constructor
      · rw [hm, aKeys_aIns_mem st.mem (pyUpper mac) d hk]
        exact h.1
      · rw [hm, length_aIns_mem st.mem (pyUpper mac) d hk]
        exact h.2
    · constructor
      · rw [hm, aKeys_aIns_not_mem st.mem (pyUpper mac) d hk]
        simp [List.nodup_append, h.1, hk]
      · rw [hm, length_aIns_not_mem st.mem (pyUpper mac) d hk]
        exact Nat.succ_le_of_lt (hcap hk)

theorem sizeInv_applyUpdates (calls : List UpdCall) (st : State) (h : sizeInv st) :
    sizeInv (applyUpdates calls st) := by
  induction calls generalizing st with
  | nil => exact h
  | cons c t ih =>
    exact ih _ (sizeInv_update c.now c.saveOk c.mac c.sa st h)

theorem storeInv_update (now : Int) (so : Bool) (mac : String) (sa : Option Attrs)
    (st : State) (h : storeInv st) :
    storeInv (stateAfter (update_device now so mac sa st)) := by
  rcases update_device_mem_cases now so mac sa st with hm | ⟨d, hm, hdm, _⟩
  · intro kd hkd
    rw [hm] at hkd
    exact h kd hkd
  · intro kd hkd
    rw [hm] at hkd
    rcases mem_aIns _ _ _ _ hkd with hin | heq
    · exact h kd hin
    · subst heq
      refine ⟨?_, pyUpper_idem mac⟩
      rcases hdm with hdm | ⟨d0, hget0, hdm⟩
      · exact hdm
      · rw [hdm]
        exact (h (pyUpper mac, d0) (aGet_mem _ _ _ hget0)).1

theorem storeInv_cleanup (cutoff : Int) (so : Bool) (st : State) (h : storeInv st) :
    storeInv (cleanup_old_devices cutoff so st).2 := by
  unfold cleanup_old_devices
  by_cases hz : ((st.mem.filter fun kd => kd.2.last_seen < cutoff).map Prod.fst) = []
  · simpa [hz] using h
  · intro kd hkd
    rw [if_neg hz] at hkd
    exact h kd (List.mem_of_mem_filter hkd)

theorem storeInv_applyOp (st : State) (op : Op) (h : storeInv st) :
    storeInv (applyOp st op) := by
  cases op with
  | upd now saveOk mac sa => exact storeInv_update now saveOk mac sa st h
  | cleanup cutoff saveOk => exact storeInv_cleanup cutoff saveOk st h
  | getDev mac => exact h
  | getAll => exact h
  | stats => exact h

/-! ### Claim theorems: capacity ceiling (C2) -/

/-- C2: starting from an empty store, the number of distinct identifiers
never exceeds `MAX_DEVICES` under any sequence of `update_device` calls
(keys stay distinct, so the dict length is that number); at or above the
ceiling an update for an identifier not already present is rejected with
the state untouched (nothing created, nothing evicted); and at the ceiling
an update for an identifier already present whose merged attributes pass
the size check (with a well-typed `supportAttributes`, so no exception) is
still accepted. -/
theorem C2_capacity :
    (∀ calls : List UpdCall, sizeInv (applyUpdates calls emptyState)) ∧
    (∀ (now : Int) (so : Bool) (mac : String) (sa : Option Attrs) (st : State),
      MAX_DEVICES ≤ st.mem.length → ¬ pyUpper mac ∈ aKeys st.mem →
      update_device now so mac sa st = UpdOut.ret false st) ∧
    (∀ (now : Int) (so : Bool) (mac : String) (b : Attrs) (st : State) (d0 : Device),
      st.mem.length = MAX_DEVICES → mac ≠ "" →
      aGet st.mem (pyUpper mac) = some d0 →
      ¬ MAX_DEVICE_SIZE_BYTES < utf8Len (dumpsAttrs (aMerge d0.attributes b)) →
      capsOk (aMerge d0.attributes b) →
      ∃ st', update_device now so mac (some b) st = UpdOut.ret true st') := by
  refine ⟨?_, ?_, ?_⟩
  · intro calls
    exact sizeInv_applyUpdates calls emptyState ⟨List.nodup_nil, by simp [emptyState, MAX_DEVICES]⟩
  · intro now so mac sa st hcap hnk
    by_cases hmac : mac = ""
    · subst hmac
      exact update_device_empty_mac now so sa st
    · exact update_device_eq_full now so mac sa st hmac
        ((aGet_eq_none_iff st.mem (pyUpper mac)).mpr hnk) hcap
  · intro now so mac b st d0 _ hmac hget hsz hok
    cases hc : aGet (aMerge d0.attributes b) (Json.str "supportAttributes") with
    | none => exact ⟨_, upd_accept_none now so mac b st d0 hmac hget hsz hc⟩
    | some v =>
      obtain ⟨s, hs⟩ := hok v hc
      subst hs
      exact ⟨_, upd_accept_str now so mac b st d0 s hmac hget hsz hc⟩

set_option maxRecDepth 100000 in
/-- Witness for C2: a short call sequence keeps the invariant; on the full
200-device store a fresh identifier is rejected with the state unchanged
while the stored identifier `K0` is still accepted. -/
theorem C2_capacity_witness :
    sizeInv (applyUpdates [⟨3, true, "aa", some [(Json.str "t", Json.str "1")]⟩] emptyState) ∧
    update_device 0 true "zz" none fullState = UpdOut.ret false fullState ∧
    (∃ st', update_device 0 true "K0" (some []) fullState = UpdOut.ret true st') :=
  ⟨C2_capacity.1 [⟨3, true, "aa", some [(Json.str "t", Json.str "1")]⟩],
   C2_capacity.2.1 0 true "zz" none fullState (by decide) (by decide),
   C2_capacity.2.2 0 true "K0" [] fullState ⟨"K0", 0, 0, [], []⟩ (by decide) (by decide)
     (by decide) (by decide)
     (by intro v h; simp [aMerge, aGet] at h)⟩

/-! ### Claim theorems: key canonicalization invariant (C10) -/

/-- C10: starting from an empty store, every operation of the storage API
(`update_device`, `cleanup_old_devices`, and the mutation-free accessors
`get_device`, `get_all_devices`, `get_storage_stats`) preserves the
invariant that each stored record's `mac` field equals its key and each key
equals its own uppercase canonicalization. -/
theorem C10_key_invariant : ∀ ops : List Op, storeInv (applyOps ops emptyState) := by
  intro ops
  have base : storeInv emptyState := by
    intro kd hkd
    simp [emptyState] at hkd
  have step : ∀ (st : State), storeInv st → ∀ t : List Op, storeInv (applyOps t st) := by
    intro st h t
    induction t generalizing st with
    | nil => exact h
    | cons op t ih => exact ih _ (storeInv_applyOp st op h)
  exact step emptyState base ops

/-- Witness for C10: after a lowercase-identifier update, a sweep and the
accessors, the stored pair for `AA` satisfies the invariant. -/
theorem C10_key_invariant_witness :
    ((⟨"AA", 3, 3, [], [(Json.str "t", Json.str "1")]⟩ : Device).mac = "AA") ∧
    pyUpper "AA" = "AA" :=
  C10_key_invariant
    [Op.upd 3 true "aa" (some [(Json.str "t", Json.str "1")]), Op.cleanup 0 true,
     Op.getDev "aa", Op.getAll, Op.stats]
    ("AA", ⟨"AA", 3, 3, [], [(Json.str "t", Json.str "1")]⟩) (by decide)
